import Mathlib

/-!
Verification development for the split-bill Telegram bot (`src/app.py`).

The embedding represents amounts as exact rationals (the Python source uses
floating point; the spec describes the arithmetic as real-number arithmetic),
user identifiers as integers, and the SQLite tables as lists of rows in
insertion (rowid) order.  Handlers are modelled as pure functions from a
database state to a database state plus a semantic outcome mirroring the
message branch the Python handler takes.
-/

set_option maxRecDepth 4000

/-- The epsilon used throughout `app.py` for treating balances as settled
(`0.01` currency units). -/
def eps : ℚ := 1 / 100

/-- One recorded transfer `(from_user_id, to_user_id, amount)`. -/
abbrev Tx := ℤ × ℤ × ℚ

/-- The body of the `while i < len(debtors) and j < len(creditors)` loop of
`minimize_transactions` (src/app.py lines 212-227).  `d` is the remaining
debtor list (current debtor at the head, holding its remaining magnitude) and
`c` the remaining creditor list.  Each iteration records
`amount = min(debt, cred)`, decrements both sides, and advances past a party
whose remaining magnitude drops to `≤ eps`. -/
def settleGo : List (ℤ × ℚ) → List (ℤ × ℚ) → List Tx
  | [], _ => []
  | _ :: _, [] => []
  | (duid, debt) :: ds, (cuid, cred) :: cs =>
    (duid, cuid, min debt cred) ::
    (if _hd : debt - min debt cred ≤ eps then
      if _hc : cred - min debt cred ≤ eps then
        settleGo ds cs
      else
        settleGo ds ((cuid, cred - min debt cred) :: cs)
    else
      if _hc : cred - min debt cred ≤ eps then
        settleGo ((duid, debt - min debt cred) :: ds) cs
      else
        settleGo ((duid, debt - min debt cred) :: ds) ((cuid, cred - min debt cred) :: cs))
termination_by d c => d.length + c.length
decreasing_by
  · simp; omega
  · simp
  · simp
  · -- both residuals above eps is impossible: one side always reaches 0
    exfalso
    rcases le_total debt cred with h | h
    · exact _hd (by rw [min_eq_left h]; simp [eps])
    · exact _hc (by rw [min_eq_right h]; simp [eps])

/-- Stable insertion step for descending sort by the second component:
the new element goes after every element whose value is `≥` its own
(so equal values keep their original relative order). -/
def insertDesc (x : ℤ × ℚ) : List (ℤ × ℚ) → List (ℤ × ℚ)
  | [] => [x]
  | y :: ys => if x.2 ≤ y.2 then y :: insertDesc x ys else x :: y :: ys

/-- Stable sort, descending by value: the embedding of
`list.sort(key=lambda x: x[1], reverse=True)` (Python's sort is stable). -/
def sortDesc (l : List (ℤ × ℚ)) : List (ℤ × ℚ) :=
  l.foldl (fun acc x => insertDesc x acc) []

/-- `minimize_transactions` (src/app.py lines 200-228): partition balances
into debtors (`amt < -0.01`, stored as positive magnitude) and creditors
(`amt > 0.01`), sort both descending, then greedily match. -/
def minimize_transactions (balances : List (ℤ × ℚ)) : List Tx :=
  let debtors := (balances.filter (fun p => decide (p.2 < -eps))).map (fun p => (p.1, -p.2))
  let creditors := balances.filter (fun p => decide (eps < p.2))
  settleGo (sortDesc debtors) (sortDesc creditors)

/-- Total amount transferred out of user `u` by a transfer list. -/
def paidBy (u : ℤ) (txs : List Tx) : ℚ :=
  ((txs.filter (fun t => decide (t.1 = u))).map (fun t => t.2.2)).sum

/-- Total amount transferred to user `u` by a transfer list. -/
def recvBy (u : ℤ) (txs : List Tx) : ℚ :=
  ((txs.filter (fun t => decide (t.2.1 = u))).map (fun t => t.2.2)).sum

/-- Sum of all transfer amounts. -/
def txSum (txs : List Tx) : ℚ :=
  (txs.map (fun t => t.2.2)).sum

/-- Sum of the positive balances of a balance list. -/
def posSum (balances : List (ℤ × ℚ)) : ℚ :=
  ((balances.filter (fun p => decide (0 < p.2))).map (fun p => p.2)).sum

/-- Sum of the magnitudes of the negative balances of a balance list. -/
def negSum (balances : List (ℤ × ℚ)) : ℚ :=
  ((balances.filter (fun p => decide (p.2 < 0))).map (fun p => -p.2)).sum

/-- Sum of the magnitudes held in a debtor/creditor list. -/
def sumVals (l : List (ℤ × ℚ)) : ℚ := (l.map (fun p => p.2)).sum

/-- A rational that is a whole number (a whole-currency-unit amount). -/
def IsIntQ (q : ℚ) : Prop := ∃ n : ℤ, q = (n : ℚ)

/-- A debtor/creditor list whose magnitudes are whole and at least one unit. -/
def GoodSide (l : List (ℤ × ℚ)) : Prop := ∀ p ∈ l, IsIntQ p.2 ∧ 1 ≤ p.2

lemma insertDesc_perm (x : ℤ × ℚ) (l : List (ℤ × ℚ)) : (insertDesc x l).Perm (x :: l) := by
  induction l with
  | nil => simp [insertDesc]
  | cons y ys ih =>
    rw [insertDesc]
    split
    · exact (ih.cons y).trans (List.Perm.swap x y ys)
    · exact List.Perm.refl _

lemma foldl_insertDesc_perm (l acc : List (ℤ × ℚ)) :
    (l.foldl (fun acc x => insertDesc x acc) acc).Perm (l ++ acc) := by
  induction l generalizing acc with
  | nil => simp
  | cons x xs ih =>
    simp only [List.foldl_cons, List.cons_append]
    exact (ih (insertDesc x acc)).trans
      ((List.Perm.append_left xs (insertDesc_perm x acc)).trans List.perm_middle)

lemma sortDesc_perm (l : List (ℤ × ℚ)) : (sortDesc l).Perm l := by
  simpa [sortDesc] using foldl_insertDesc_perm l []

lemma IsIntQ.one_le {q : ℚ} (h : IsIntQ q) (hq : eps < q) : 1 ≤ q := by
  obtain ⟨n, rfl⟩ := h
  have h1 : (0 : ℚ) < n := lt_trans (by norm_num [eps]) hq
  have h2 : (0 : ℤ) < n := by exact_mod_cast h1
  exact_mod_cast h2

lemma IsIntQ.eq_zero {q : ℚ} (h : IsIntQ q) (h0 : 0 ≤ q) (he : q ≤ eps) : q = 0 := by
  obtain ⟨n, rfl⟩ := h
  have h1 : (0 : ℤ) ≤ n := by exact_mod_cast h0
  have h2 : (n : ℚ) < 1 := lt_of_le_of_lt he (by norm_num [eps])
  have h3 : n < 1 := by exact_mod_cast h2
  have : n = 0 := by omega
  simp [this]

lemma IsIntQ.sub {a b : ℚ} (ha : IsIntQ a) (hb : IsIntQ b) : IsIntQ (a - b) := by
  obtain ⟨m, rfl⟩ := ha; obtain ⟨n, rfl⟩ := hb
  exact ⟨m - n, by push_cast; ring⟩

lemma IsIntQ.min {a b : ℚ} (ha : IsIntQ a) (hb : IsIntQ b) : IsIntQ (min a b) := by
  rcases le_total a b with h | h
  · rwa [min_eq_left h]
  · rwa [min_eq_right h]

lemma GoodSide.sum_nonneg {l : List (ℤ × ℚ)} (h : GoodSide l) : 0 ≤ sumVals l := by
  induction l with
  | nil => simp [sumVals]
  | cons p ps ih =>
    have hp := h p (by simp)
    have hps : GoodSide ps := fun q hq => h q (by simp [hq])
    have := ih hps
    simp only [sumVals, List.map_cons, List.sum_cons] at *
    linarith [hp.2]

lemma GoodSide.eq_nil_of_sum_eq_zero {l : List (ℤ × ℚ)} (h : GoodSide l)
    (hs : sumVals l = 0) : l = [] := by
  cases l with
  | nil => rfl
  | cons p ps =>
    exfalso
    have hp := h p (by simp)
    have hps : GoodSide ps := fun q hq => h q (by simp [hq])
    have h1 := hps.sum_nonneg
    simp only [sumVals, List.map_cons, List.sum_cons] at hs
    have : sumVals ps = (ps.map (fun p => p.2)).sum := rfl
    rw [← this] at hs
    linarith [hp.2]

lemma paidBy_cons (u : ℤ) (t : Tx) (ts : List Tx) :
    paidBy u (t :: ts) = (if t.1 = u then t.2.2 else 0) + paidBy u ts := by
  simp only [paidBy, List.filter_cons]
  split
  · rename_i h
    simp only [decide_eq_true_eq] at h
    simp [h, List.map_cons, List.sum_cons]
  · rename_i h
    simp only [decide_eq_true_eq] at h
    simp [h]

lemma recvBy_cons (u : ℤ) (t : Tx) (ts : List Tx) :
    recvBy u (t :: ts) = (if t.2.1 = u then t.2.2 else 0) + recvBy u ts := by
  simp only [recvBy, List.filter_cons]
  split
  · rename_i h
    simp only [decide_eq_true_eq] at h
    simp [h, List.map_cons, List.sum_cons]
  · rename_i h
    simp only [decide_eq_true_eq] at h
    simp [h]

lemma settleGo_cons (duid : ℤ) (debt : ℚ) (ds : List (ℤ × ℚ))
    (cuid : ℤ) (cred : ℚ) (cs : List (ℤ × ℚ)) :
    settleGo ((duid, debt) :: ds) ((cuid, cred) :: cs) =
    (duid, cuid, min debt cred) ::
    (if debt - min debt cred ≤ eps then
      if cred - min debt cred ≤ eps then
        settleGo ds cs
      else
        settleGo ds ((cuid, cred - min debt cred) :: cs)
    else
      if cred - min debt cred ≤ eps then
        settleGo ((duid, debt - min debt cred) :: ds) cs
      else
        settleGo ((duid, debt - min debt cred) :: ds) ((cuid, cred - min debt cred) :: cs)) := by
  rw [settleGo]
  simp only [dite_eq_ite]

lemma settleGo_mem_keys (d c : List (ℤ × ℚ)) :
    ∀ t ∈ settleGo d c, t.1 ∈ d.map Prod.fst ∧ t.2.1 ∈ c.map Prod.fst := by
  induction d, c using settleGo.induct with
  | case1 c => simp [settleGo]
  | case2 p d => simp [settleGo]
  | case3 duid debt ds cuid cred cs ih1 ih2 ih3 ih4 =>
    intro t ht
    rw [settleGo_cons] at ht
    rcases List.mem_cons.mp ht with rfl | ht
    · simp
    · split_ifs at ht with h1 h2 h2
      · have h := ih1 t ht
        simp only [List.map_cons]
        exact ⟨List.mem_cons_of_mem _ h.1, List.mem_cons_of_mem _ h.2⟩
      · have h := ih2 t ht
        refine ⟨?_, ?_⟩
        · simp only [List.map_cons]
          exact List.mem_cons.mpr (Or.inr (by simpa using h.1))
        · simpa using h.2
      · have h := ih3 t ht
        refine ⟨?_, ?_⟩
        · simpa using h.1
        · simp only [List.map_cons]
          exact List.mem_cons.mpr (Or.inr (by simpa using h.2))
      · have h := ih4 h1 h2 t ht
        refine ⟨by simpa using h.1, by simpa using h.2⟩

lemma paidBy_settleGo_eq_zero {u : ℤ} {d c : List (ℤ × ℚ)}
    (h : u ∉ d.map Prod.fst) : paidBy u (settleGo d c) = 0 := by
  have : (settleGo d c).filter (fun t => decide (t.1 = u)) = [] := by
    rw [List.filter_eq_nil_iff]
    intro t ht
    simp only [decide_eq_true_eq]
    intro hc
    exact h (hc ▸ (settleGo_mem_keys d c t ht).1)
  simp [paidBy, this]

lemma recvBy_settleGo_eq_zero {u : ℤ} {d c : List (ℤ × ℚ)}
    (h : u ∉ c.map Prod.fst) : recvBy u (settleGo d c) = 0 := by
  have : (settleGo d c).filter (fun t => decide (t.2.1 = u)) = [] := by
    rw [List.filter_eq_nil_iff]
    intro t ht
    simp only [decide_eq_true_eq]
    intro hc
    exact h (hc ▸ (settleGo_mem_keys d c t ht).2)
  simp [recvBy, this]

lemma txSum_cons (t : Tx) (ts : List Tx) : txSum (t :: ts) = t.2.2 + txSum ts := by
  simp [txSum]

lemma sumVals_cons (p : ℤ × ℚ) (l : List (ℤ × ℚ)) : sumVals (p :: l) = p.2 + sumVals l := by
  simp [sumVals]

lemma GoodSide.tail {p : ℤ × ℚ} {l : List (ℤ × ℚ)} (h : GoodSide (p :: l)) : GoodSide l :=
  fun q hq => h q (List.mem_cons_of_mem p hq)

lemma GoodSide.head {p : ℤ × ℚ} {l : List (ℤ × ℚ)} (h : GoodSide (p :: l)) :
    IsIntQ p.2 ∧ 1 ≤ p.2 := h p (List.mem_cons_self p l)

/-- Under whole-unit magnitudes the greedy loop transfers exactly
`min (total debt) (total credit)`. -/
lemma settleGo_sum (d c : List (ℤ × ℚ)) :
    GoodSide d → GoodSide c → txSum (settleGo d c) = min (sumVals d) (sumVals c) := by
  induction d, c using settleGo.induct with
  | case1 c =>
    intro _ hc
    rw [settleGo]
    simp only [txSum, List.map_nil, List.sum_nil, sumVals]
    exact (min_eq_left (by simpa [sumVals] using hc.sum_nonneg)).symm
  | case2 p d =>
    intro hd _
    rw [settleGo]
    simp only [txSum, List.map_nil, List.sum_nil, sumVals, List.map_nil, List.sum_nil]
    exact (min_eq_right (by simpa [sumVals] using hd.sum_nonneg)).symm
  | case3 duid debt ds cuid cred cs ih1 ih2 ih3 ih4 =>
    intro hd hc
    obtain ⟨hdI, hd1⟩ := hd.head
    obtain ⟨hcI, hc1⟩ := hc.head
    have hminI : IsIntQ (min debt cred) := hdI.min hcI
    have hd'I : IsIntQ (debt - min debt cred) := hdI.sub hminI
    have hc'I : IsIntQ (cred - min debt cred) := hcI.sub hminI
    have hd'0 : 0 ≤ debt - min debt cred := by simp [min_le_left]
    have hc'0 : 0 ≤ cred - min debt cred := by simp [min_le_right]
    rw [settleGo_cons, txSum_cons]
    split_ifs with h1 h2 h2
    · -- both residuals vanish: debt = cred = amount
      have e1 : debt - min debt cred = 0 := hd'I.eq_zero hd'0 h1
      have e2 : cred - min debt cred = 0 := hc'I.eq_zero hc'0 h2
      have edc : debt = cred := by
        have := e1; have := e2; linarith
      rw [ih1 hd.tail hc.tail]
      simp only [sumVals_cons]
      rw [show min debt cred = debt from by rw [min_eq_left (le_of_eq edc)],
        show cred = debt from edc.symm, ← min_add_add_left]
    · -- debtor exhausted, creditor keeps a remainder above eps
      have e1 : debt - min debt cred = 0 := hd'I.eq_zero hd'0 h1
      have eamt : min debt cred = debt := by linarith
      have hcr' : GoodSide ((cuid, cred - min debt cred) :: cs) := by
        intro q hq
        rcases List.mem_cons.mp hq with rfl | hq
        · exact ⟨hc'I, hc'I.one_le (not_le.mp h2)⟩
        · exact hc.tail q hq
      rw [ih2 hd.tail hcr']
      simp only [sumVals_cons, eamt]
      rw [show cred + sumVals cs = debt + (cred - debt + sumVals cs) from by ring,
        ← min_add_add_left]
    · -- creditor exhausted, debtor keeps a remainder above eps
      have e2 : cred - min debt cred = 0 := hc'I.eq_zero hc'0 h2
      have eamt : min debt cred = cred := by linarith
      have hdr' : GoodSide ((duid, debt - min debt cred) :: ds) := by
        intro q hq
        rcases List.mem_cons.mp hq with rfl | hq
        · exact ⟨hd'I, hd'I.one_le (not_le.mp h1)⟩
        · exact hd.tail q hq
      rw [ih3 hdr' hc.tail]
      simp only [sumVals_cons, eamt]
      rw [show debt + sumVals ds = cred + (debt - cred + sumVals ds) from by ring,
        ← min_add_add_left, min_comm]
    · -- impossible: one side always reaches exactly zero
      exfalso
      rcases le_total debt cred with h | h
      · exact h1 (by rw [min_eq_left h]; simp [eps])
      · exact h2 (by rw [min_eq_right h]; simp [eps])

/-- Under whole-unit magnitudes, distinct keys, and equal totals, the greedy
loop settles every party exactly: each debtor pays exactly its debt and each
creditor receives exactly its credit. -/
lemma settleGo_exact (d c : List (ℤ × ℚ)) :
    GoodSide d → GoodSide c →
    (d.map Prod.fst).Nodup → (c.map Prod.fst).Nodup →
    sumVals d = sumVals c →
    (∀ p ∈ d, paidBy p.1 (settleGo d c) = p.2) ∧
    (∀ p ∈ c, recvBy p.1 (settleGo d c) = p.2) := by
  induction d, c using settleGo.induct with
  | case1 c =>
    intro _ hc _ _ hsum
    have hn : c = [] := hc.eq_nil_of_sum_eq_zero (by simpa [sumVals] using hsum.symm)
    subst hn
    exact ⟨by simp, by simp⟩
  | case2 p d =>
    intro hd _ _ _ hsum
    have hn : (p :: d) = [] := hd.eq_nil_of_sum_eq_zero (by simpa [sumVals] using hsum)
    simp at hn
  | case3 duid debt ds cuid cred cs ih1 ih2 ih3 ih4 =>
    intro hd hc hdn hcn hsum
    obtain ⟨hdI, hd1⟩ := hd.head
    obtain ⟨hcI, hc1⟩ := hc.head
    have hminI : IsIntQ (min debt cred) := hdI.min hcI
    have hd'I : IsIntQ (debt - min debt cred) := hdI.sub hminI
    have hc'I : IsIntQ (cred - min debt cred) := hcI.sub hminI
    have hd'0 : 0 ≤ debt - min debt cred := by simp [min_le_left]
    have hc'0 : 0 ≤ cred - min debt cred := by simp [min_le_right]
    simp only [List.map_cons, List.nodup_cons] at hdn hcn
    obtain ⟨hdun, hdn'⟩ := hdn
    obtain ⟨hcun, hcn'⟩ := hcn
    simp only [sumVals_cons] at hsum
    rw [settleGo_cons]
    split_ifs with h1 h2 h2
    · -- both sides exhausted this round: debt = cred
      have e1 : debt - min debt cred = 0 := hd'I.eq_zero hd'0 h1
      have e2 : cred - min debt cred = 0 := hc'I.eq_zero hc'0 h2
      have eamt : min debt cred = debt := by linarith
      have edc : debt = cred := by linarith
      have ih := ih1 hd.tail hc.tail hdn' hcn' (by linarith)
      constructor
      · intro p hp
        rcases List.mem_cons.mp hp with rfl | hp
        · rw [paidBy_cons]
          simp only [if_pos rfl, if_true]
          rw [paidBy_settleGo_eq_zero hdun, eamt, add_zero]
        · have hne : duid ≠ p.1 := fun h => hdun (h ▸ List.mem_map_of_mem Prod.fst hp)
          rw [paidBy_cons]
          simp only [if_neg hne, zero_add]
          exact ih.1 p hp
      · intro p hp
        rcases List.mem_cons.mp hp with rfl | hp
        · rw [recvBy_cons]
          simp only [if_pos rfl, if_true]
          rw [recvBy_settleGo_eq_zero hcun, eamt, add_zero]
          exact edc
        · have hne : cuid ≠ p.1 := fun h => hcun (h ▸ List.mem_map_of_mem Prod.fst hp)
          rw [recvBy_cons]
          simp only [if_neg hne, zero_add]
          exact ih.2 p hp
    · -- debtor exhausted; creditor keeps cred - debt
      have e1 : debt - min debt cred = 0 := hd'I.eq_zero hd'0 h1
      have eamt : min debt cred = debt := by linarith
      have hcg : GoodSide ((cuid, cred - min debt cred) :: cs) := by
        intro q hq
        rcases List.mem_cons.mp hq with rfl | hq
        · exact ⟨hc'I, hc'I.one_le (not_le.mp h2)⟩
        · exact hc.tail q hq
      have hcn'' : (((cuid, cred - min debt cred) :: cs).map Prod.fst).Nodup := by
        simp only [List.map_cons, List.nodup_cons]
        exact ⟨hcun, hcn'⟩
      have ih := ih2 hd.tail hcg hdn' hcn'' (by simp only [sumVals_cons]; linarith)
      constructor
      · intro p hp
        rcases List.mem_cons.mp hp with rfl | hp
        · rw [paidBy_cons]
          simp only [if_pos rfl, if_true]
          rw [paidBy_settleGo_eq_zero hdun, eamt, add_zero]
        · have hne : duid ≠ p.1 := fun h => hdun (h ▸ List.mem_map_of_mem Prod.fst hp)
          rw [paidBy_cons]
          simp only [if_neg hne, zero_add]
          exact ih.1 p hp
      · intro p hp
        rcases List.mem_cons.mp hp with rfl | hp
        · rw [recvBy_cons]
          simp only [if_pos rfl, if_true]
          have := ih.2 (cuid, cred - min debt cred) (List.mem_cons_self _ _)
          simp only at this
          rw [this, eamt]
          ring
        · have hne : cuid ≠ p.1 := fun h => hcun (h ▸ List.mem_map_of_mem Prod.fst hp)
          rw [recvBy_cons]
          simp only [if_neg hne, zero_add]
          exact ih.2 p (List.mem_cons_of_mem _ hp)
    · -- creditor exhausted; debtor keeps debt - cred
      have e2 : cred - min debt cred = 0 := hc'I.eq_zero hc'0 h2
      have eamt : min debt cred = cred := by linarith
      have hdg : GoodSide ((duid, debt - min debt cred) :: ds) := by
        intro q hq
        rcases List.mem_cons.mp hq with rfl | hq
        · exact ⟨hd'I, hd'I.one_le (not_le.mp h1)⟩
        · exact hd.tail q hq
      have hdn'' : (((duid, debt - min debt cred) :: ds).map Prod.fst).Nodup := by
        simp only [List.map_cons, List.nodup_cons]
        exact ⟨hdun, hdn'⟩
      have ih := ih3 hdg hc.tail hdn'' hcn' (by simp only [sumVals_cons]; linarith)
      constructor
      · intro p hp
        rcases List.mem_cons.mp hp with rfl | hp
        · rw [paidBy_cons]
          simp only [if_pos rfl, if_true]
          have := ih.1 (duid, debt - min debt cred) (List.mem_cons_self _ _)
          simp only at this
          rw [this, eamt]
          ring
        · have hne : duid ≠ p.1 := fun h => hdun (h ▸ List.mem_map_of_mem Prod.fst hp)
          rw [paidBy_cons]
          simp only [if_neg hne, zero_add]
          exact ih.1 p (List.mem_cons_of_mem _ hp)
      · intro p hp
        rcases List.mem_cons.mp hp with rfl | hp
        · rw [recvBy_cons]
          simp only [if_pos rfl, if_true]
          rw [recvBy_settleGo_eq_zero hcun, eamt, add_zero]
        · have hne : cuid ≠ p.1 := fun h => hcun (h ▸ List.mem_map_of_mem Prod.fst hp)
          rw [recvBy_cons]
          simp only [if_neg hne, zero_add]
          exact ih.2 p hp
    · exfalso
      rcases le_total debt cred with h | h
      · exact h1 (by rw [min_eq_left h]; simp [eps])
      · exact h2 (by rw [min_eq_right h]; simp [eps])

lemma IsIntQ.lt_neg_eps {q : ℚ} (h : IsIntQ q) (hq : q < 0) : q < -eps := by
  obtain ⟨n, rfl⟩ := h
  have h1 : n < 0 := by exact_mod_cast hq
  have h2 : (n : ℚ) ≤ -1 := by exact_mod_cast (show n ≤ -1 by omega)
  have : (-1 : ℚ) < -eps := by norm_num [eps]
  linarith

lemma IsIntQ.eps_lt {q : ℚ} (h : IsIntQ q) (hq : 0 < q) : eps < q := by
  obtain ⟨n, rfl⟩ := h
  have h1 : 0 < n := by exact_mod_cast hq
  have h2 : (1 : ℚ) ≤ n := by exact_mod_cast (show 1 ≤ n by omega)
  have : eps < (1 : ℚ) := by norm_num [eps]
  linarith

lemma filter_neg_eps_eq {bal : List (ℤ × ℚ)} (hint : ∀ p ∈ bal, IsIntQ p.2) :
    bal.filter (fun p => decide (p.2 < -eps)) = bal.filter (fun p => decide (p.2 < 0)) := by
  apply List.filter_congr
  intro p hp
  simp only [decide_eq_decide]
  constructor
  · intro h
    have : -eps < 0 := by norm_num [eps]
    linarith
  · intro h
    exact (hint p hp).lt_neg_eps h

lemma filter_pos_eps_eq {bal : List (ℤ × ℚ)} (hint : ∀ p ∈ bal, IsIntQ p.2) :
    bal.filter (fun p => decide (eps < p.2)) = bal.filter (fun p => decide (0 < p.2)) := by
  apply List.filter_congr
  intro p hp
  simp only [decide_eq_decide]
  constructor
  · intro h
    have : 0 < eps := by norm_num [eps]
    linarith
  · intro h
    exact (hint p hp).eps_lt h

/-- C2 (amended): with whole-unit balances, distinct user ids, and positive
total exactly equal to negative total, `minimize_transactions` settles
exactly: the transfers sum to the total, every debtor pays exactly its debt,
and every creditor receives exactly its credit (zero residuals). -/
theorem minimize_transactions_exact (bal : List (ℤ × ℚ))
    (hnd : (bal.map Prod.fst).Nodup)
    (hint : ∀ p ∈ bal, IsIntQ p.2)
    (hbal : posSum bal = negSum bal) :
    txSum (minimize_transactions bal) = posSum bal ∧
    (∀ p ∈ bal, p.2 < 0 → paidBy p.1 (minimize_transactions bal) = -p.2) ∧
    (∀ p ∈ bal, 0 < p.2 → recvBy p.1 (minimize_transactions bal) = p.2) := by
  have hfneg := filter_neg_eps_eq hint
  have hfpos := filter_pos_eps_eq hint
  set D0 : List (ℤ × ℚ) :=
    (bal.filter (fun p => decide (p.2 < -eps))).map (fun p => (p.1, -p.2)) with hD0
  set C0 : List (ℤ × ℚ) := bal.filter (fun p => decide (eps < p.2)) with hC0
  have hmt : minimize_transactions bal = settleGo (sortDesc D0) (sortDesc C0) := rfl
  have hGD : GoodSide (sortDesc D0) := by
    intro p hp
    have hp0 : p ∈ D0 := ((sortDesc_perm D0).mem_iff).mp hp
    rw [hD0] at hp0
    obtain ⟨q, hq, rfl⟩ := List.mem_map.mp hp0
    obtain ⟨hqb, hqd⟩ := List.mem_filter.mp hq
    simp only [decide_eq_true_eq] at hqd
    obtain ⟨n, hn⟩ := hint q hqb
    have hI : IsIntQ (-q.2) := ⟨-n, by rw [hn]; push_cast; ring⟩
    exact ⟨hI, hI.one_le (by show eps < -q.2; linarith)⟩
  have hGC : GoodSide (sortDesc C0) := by
    intro p hp
    have hp0 : p ∈ C0 := ((sortDesc_perm C0).mem_iff).mp hp
    rw [hC0] at hp0
    obtain ⟨hqb, hqd⟩ := List.mem_filter.mp hp0
    simp only [decide_eq_true_eq] at hqd
    exact ⟨hint p hqb, (hint p hqb).one_le hqd⟩
  have hfstD : D0.map Prod.fst = (bal.filter (fun p => decide (p.2 < -eps))).map Prod.fst := by
    rw [hD0, List.map_map]
    rfl
  have hND : ((sortDesc D0).map Prod.fst).Nodup := by
    refine (((sortDesc_perm D0).map Prod.fst).nodup_iff).mpr ?_
    rw [hfstD]
    exact hnd.sublist ((List.filter_sublist bal).map Prod.fst)
  have hNC : ((sortDesc C0).map Prod.fst).Nodup := by
    refine (((sortDesc_perm C0).map Prod.fst).nodup_iff).mpr ?_
    rw [hC0]
    exact hnd.sublist ((List.filter_sublist bal).map Prod.fst)
  have hSD : sumVals (sortDesc D0) = negSum bal := by
    have h1 : sumVals (sortDesc D0) = sumVals D0 := by
      unfold sumVals
      exact ((sortDesc_perm D0).map (fun p => p.2)).sum_eq
    rw [h1, hD0]
    unfold sumVals
    rw [List.map_map]
    rw [show ((fun p => p.2) ∘ fun p : ℤ × ℚ => (p.1, -p.2)) = fun p : ℤ × ℚ => -p.2 from rfl]
    rw [hfneg]
    rfl
  have hSC : sumVals (sortDesc C0) = posSum bal := by
    have h1 : sumVals (sortDesc C0) = sumVals C0 := by
      unfold sumVals
      exact ((sortDesc_perm C0).map (fun p => p.2)).sum_eq
    rw [h1, hfpos]
    rfl
  have hsum : sumVals (sortDesc D0) = sumVals (sortDesc C0) := by
    rw [hSD, hSC, hbal]
  have hex := settleGo_exact _ _ hGD hGC hND hNC hsum
  have hts := settleGo_sum _ _ hGD hGC
  refine ⟨?_, ?_, ?_⟩
  · rw [hmt, hts, hsum, min_self, hSC]
  · intro p hp hneg
    have hmemf : p ∈ bal.filter (fun p => decide (p.2 < -eps)) :=
      List.mem_filter.mpr ⟨hp, by simpa using (hint p hp).lt_neg_eps hneg⟩
    have hpd : (p.1, -p.2) ∈ D0 := by
      rw [hD0]
      exact List.mem_map_of_mem _ hmemf
    have hps : (p.1, -p.2) ∈ sortDesc D0 := ((sortDesc_perm D0).mem_iff).mpr hpd
    have := hex.1 (p.1, -p.2) hps
    simpa [hmt] using this
  · intro p hp hpos
    have hmemf : p ∈ C0 := by
      rw [hC0]
      exact List.mem_filter.mpr ⟨hp, by simpa using (hint p hp).eps_lt hpos⟩
    have hps : p ∈ sortDesc C0 := ((sortDesc_perm C0).mem_iff).mpr hmemf
    have := hex.2 p hps
    simpa [hmt] using this

/-- A balance list whose positive and negative totals agree within `eps`
(2 versus 257/128) but on which the greedy loop under-transfers: the third
debtor is never settled. -/
def cexBalances : List (ℤ × ℚ) :=
  [(1, -(127/128)), (2, -(127/128)), (3, -(3/128)), (4, 1), (5, 1)]

/-- C2 (counterexample): the balances `cexBalances` satisfy the claim's
hypothesis (positive and negative totals agree within epsilon) yet the
transfers fall short of both totals by more than epsilon, and debtor 3
(balance `-3/128`, a debtor since it is below `-eps`) pays nothing and so
retains a residual magnitude `3/128 > eps`. -/
theorem minimize_transactions_eps_cex :
    (negSum cexBalances - posSum cexBalances ≤ eps ∧
     posSum cexBalances - negSum cexBalances ≤ eps) ∧
    eps < posSum cexBalances - txSum (minimize_transactions cexBalances) ∧
    eps < negSum cexBalances - txSum (minimize_transactions cexBalances) ∧
    ((3 : ℤ), -(3/128 : ℚ)) ∈ cexBalances ∧
    -(3/128 : ℚ) < -eps ∧
    paidBy 3 (minimize_transactions cexBalances) = 0 ∧
    eps < (3/128 : ℚ) - paidBy 3 (minimize_transactions cexBalances) := by
  have hd : (cexBalances.filter (fun p => decide (p.2 < -eps))).map (fun p => (p.1, -p.2)) =
      [((1:ℤ), (127:ℚ)/128), (2, 127/128), (3, 3/128)] := by
    norm_num [cexBalances, eps, List.filter]
  have hc : cexBalances.filter (fun p => decide (eps < p.2)) = [((4:ℤ), (1:ℚ)), (5, 1)] := by
    norm_num [cexBalances, eps, List.filter]
  have hsd : sortDesc [((1:ℤ), (127:ℚ)/128), (2, 127/128), (3, 3/128)] =
      [(1, 127/128), (2, 127/128), (3, 3/128)] := by
    simp only [sortDesc, List.foldl]
    norm_num [insertDesc]
  have hsc : sortDesc [((4:ℤ), (1:ℚ)), (5, 1)] = [(4, 1), (5, 1)] := by
    simp only [sortDesc, List.foldl]
    norm_num [insertDesc]
  have hgo : settleGo [((1:ℤ), (127:ℚ)/128), (2, 127/128), (3, 3/128)] [((4:ℤ), (1:ℚ)), (5, 1)] =
      [(1, 4, 127/128), (2, 5, 127/128)] := by
    rw [settleGo.eq_def]
    norm_num [eps]
    rw [settleGo.eq_def]
    norm_num [eps]
    rw [settleGo.eq_def]
  have hmt0 : minimize_transactions cexBalances =
      settleGo (sortDesc ((cexBalances.filter (fun p => decide (p.2 < -eps))).map
        (fun p => (p.1, -p.2)))) (sortDesc (cexBalances.filter (fun p => decide (eps < p.2)))) :=
    rfl
  rw [hd, hc, hsd, hsc, hgo] at hmt0
  rw [hmt0]
  norm_num [cexBalances, eps, posSum, negSum, txSum, paidBy, List.filter]

/-- Witness for the amended C2 theorem at the concrete balance list
`[(1, 3), (2, -1), (3, -2)]`. -/
theorem minimize_transactions_exact_witness :
    txSum (minimize_transactions [((1:ℤ), (3:ℚ)), (2, -1), (3, -2)]) = 3 := by
  have h := minimize_transactions_exact [((1:ℤ), (3:ℚ)), (2, -1), (3, -2)]
    (by decide)
    (by
      intro p hp
      fin_cases hp
      · exact ⟨3, by norm_num⟩
      · exact ⟨-1, by norm_num⟩
      · exact ⟨-2, by norm_num⟩)
    (by norm_num [posSum, negSum, List.filter])
  rw [h.1]
  norm_num [posSum, List.filter]

/-- One receipt line as seen by `close_resto`: the stored `resto_items` row
fields that matter for the split, plus the list of user ids holding a
`resto_choices` row for this item (in row order). -/
structure SplitItem where
  price : ℚ
  quantity : ℤ
  is_shared : Bool
  claimants : List ℤ
deriving Repr, DecidableEq

/-- The embedding of `for uid in choosers: user_totals[uid] += split`
(src/app.py line 715-716): credit `split` to each chooser in turn. -/
def creditChoosers (split : ℚ) (choosers : List ℤ) (t : ℤ → ℚ) : ℤ → ℚ :=
  choosers.foldl (fun acc u => Function.update acc u (acc u + split)) t

/-- Processing of one receipt line by the `for ... in items` loop of
`close_resto` (src/app.py lines 706-716), restricted to the `user_totals`
accumulator: a shared item does not touch `user_totals` (its cost goes to the
shared pool, handled separately), a non-shared item with no choosers is
skipped, and a non-shared item with `k ≥ 1` choosers credits
`price * quantity / k` to each chooser. -/
def applyItem (t : ℤ → ℚ) (it : SplitItem) : ℤ → ℚ :=
  if it.is_shared then t
  else if it.claimants.isEmpty then t
  else creditChoosers (it.price * (it.quantity : ℚ) / it.claimants.length) it.claimants t

/-- The shared pool `shared_total` accumulated by the same loop
(src/app.py lines 705-709). -/
def sharedTotal (items : List SplitItem) : ℚ :=
  ((items.filter (fun it => it.is_shared)).map (fun it => it.price * (it.quantity : ℚ))).sum

/-- The final `user_totals` computed by `close_resto` (src/app.py
lines 701-721): fold the per-item crediting over all items, then divide the
shared pool equally over the participant set when it is positive. -/
def restoUserTotals (participants : List ℤ) (items : List SplitItem) : ℤ → ℚ :=
  let t := items.foldl applyItem (fun _ => 0)
  if 0 < sharedTotal items then
    fun u => if u ∈ participants then t u + sharedTotal items / participants.length else t u
  else t

lemma creditChoosers_not_mem {u : ℤ} (s : ℚ) (cs : List ℤ) (t : ℤ → ℚ)
    (hu : u ∉ cs) : creditChoosers s cs t u = t u := by
  induction cs generalizing t with
  | nil => rfl
  | cons c cs' ih =>
    have hne : u ≠ c := fun h => hu (h ▸ List.mem_cons_self c cs')
    have hu' : u ∉ cs' := fun h => hu (List.mem_cons_of_mem c h)
    simp only [creditChoosers, List.foldl_cons] at *
    rw [ih _ hu', Function.update_noteq hne]

lemma creditChoosers_mem {u : ℤ} (s : ℚ) (cs : List ℤ) (t : ℤ → ℚ)
    (hnd : cs.Nodup) (hu : u ∈ cs) : creditChoosers s cs t u = t u + s := by
  induction cs generalizing t with
  | nil => simp at hu
  | cons c cs' ih =>
    obtain ⟨hcn, hnd'⟩ := List.nodup_cons.mp hnd
    rcases List.mem_cons.mp hu with rfl | hu'
    · have hun : u ∉ cs' := hcn
      simp only [creditChoosers, List.foldl_cons]
      rw [show (List.foldl (fun acc u => Function.update acc u (acc u + s))
          (Function.update t u (t u + s)) cs') =
          creditChoosers s cs' (Function.update t u (t u + s)) from rfl]
      rw [creditChoosers_not_mem s cs' _ hun, Function.update_same]
    · have hne : u ≠ c := fun h => hcn (h ▸ hu')
      simp only [creditChoosers, List.foldl_cons] at *
      rw [ih _ hnd' hu', Function.update_noteq hne]

/-- C3: in the claim split computed at close of an ItemizedReceipt session,
a non-shared item claimed by `k ≥ 1` distinct users increases each
claimant's attributed cost by exactly `price * quantity / k`; a non-shared
item with zero claimants leaves every participant's attributed cost
unchanged; and a non-shared item never changes the cost of a non-claimant. -/
theorem claim_split_per_item (t : ℤ → ℚ) (it : SplitItem)
    (hns : it.is_shared = false) (hnd : it.claimants.Nodup) :
    (∀ u ∈ it.claimants,
      applyItem t it u = t u + it.price * (it.quantity : ℚ) / it.claimants.length) ∧
    (it.claimants = [] → applyItem t it = t) ∧
    (∀ u, u ∉ it.claimants → applyItem t it u = t u) := by
  refine ⟨?_, ?_, ?_⟩
  · intro u hu
    have hne : ¬ it.claimants.isEmpty := by
      cases h : it.claimants with
      | nil => rw [h] at hu; simp at hu
      | cons a l => simp [h]
    rw [applyItem, if_neg (by simp [hns]), if_neg hne]
    exact creditChoosers_mem _ _ t hnd hu
  · intro h
    rw [applyItem, if_neg (by simp [hns]), if_pos (by simp [h])]
  · intro u hu
    rw [applyItem, if_neg (by simp [hns])]
    by_cases he : it.claimants.isEmpty
    · rw [if_pos he]
    · rw [if_neg he]
      exact creditChoosers_not_mem _ _ t hu

/-- Witness for C3 at the concrete item `price 50000, quantity 1, not shared,
claimed by users 1 and 2`, starting from the all-zero running cost. -/
theorem claim_split_per_item_witness :
    applyItem (fun _ => 0) (SplitItem.mk 50000 1 false [1, 2]) 1 = 25000 ∧
    applyItem (fun _ => 0) (SplitItem.mk 50000 1 false []) = (fun _ => (0 : ℚ)) := by
  have h := claim_split_per_item (fun _ => 0) (SplitItem.mk 50000 1 false [1, 2]) rfl
    (by decide)
  have h0 := claim_split_per_item (fun _ => 0) (SplitItem.mk 50000 1 false []) rfl
    (by decide)
  constructor
  · have h1 := h.1 1 (by decide)
    rw [h1]
    norm_num
  · exact h0.2.1 rfl

/-- A row of the `bills` table. -/
structure Bill where
  id : ℕ
  chat_id : ℤ
  creator_id : ℤ
  creator_username : String
  closed_at : Option ℕ
  status : String
deriving Repr, DecidableEq

/-- A row of the `bill_participants` table (the autoincrement id is omitted;
uniqueness of `(bill_id, user_id)` is enforced by the insert logic). -/
structure BillParticipant where
  bill_id : ℕ
  user_id : ℤ
  username : String
deriving Repr, DecidableEq

/-- A row of the `expenses` table. -/
structure Expense where
  bill_id : ℕ
  user_id : ℤ
  username : String
  description : String
  amount : ℚ
deriving Repr, DecidableEq

/-- A row of the `resto_sessions` table. -/
structure RestoSession where
  id : ℕ
  chat_id : ℤ
  creator_id : ℤ
  creator_username : String
  closed_at : Option ℕ
  status : String
deriving Repr, DecidableEq

/-- A row of the `resto_items` table. -/
structure RestoItem where
  id : ℕ
  session_id : ℕ
  item_name : String
  price : ℚ
  quantity : ℤ
  is_shared : Bool
deriving Repr, DecidableEq

/-- A row of the `resto_choices` table (autoincrement id omitted). -/
structure RestoChoice where
  item_id : ℕ
  user_id : ℤ
  username : String
deriving Repr, DecidableEq

/-- The whole SQLite database: each table as its list of rows in rowid
(insertion) order, plus the autoincrement counters that matter. -/
structure DB where
  bills : List Bill
  bill_participants : List BillParticipant
  expenses : List Expense
  resto_sessions : List RestoSession
  resto_items : List RestoItem
  resto_choices : List RestoChoice
  next_bill_id : ℕ
  next_session_id : ℕ
  next_item_id : ℕ
deriving Repr, DecidableEq

/-- The freshly initialised database. -/
def DB.empty : DB := ⟨[], [], [], [], [], [], 1, 1, 1⟩

/-- The semantic outcome of one handler invocation: which reply/branch the
Python handler takes (replies themselves are presentation, not state). -/
inductive Outcome where
  | createdBill
  | createdResto
  | alreadyOpen
  | joined
  | alreadyJoined
  | sessionClosed
  | noOpenSession
  | notAParticipant
  | badFormat
  | invalidAmount
  | expenseAdded
  | notCreator
  | alreadyIngested
  | noItemsRecognized
  | receiptProcessed
  | toggledOn
  | toggledOff
  | closedBill
  | closedResto
  | noParticipants
  | noExpenses
  | noOpenSessions
  | missingSession
deriving Repr, DecidableEq

/-- `SELECT ... FROM bills WHERE chat_id = ? AND status = 'open'` (first row). -/
def findOpenBill (db : DB) (chat : ℤ) : Option Bill :=
  db.bills.find? (fun b => decide (b.chat_id = chat ∧ b.status = "open"))

/-- `SELECT ... FROM resto_sessions WHERE chat_id = ? AND status = 'open'`
(first row). -/
def findOpenResto (db : DB) (chat : ℤ) : Option RestoSession :=
  db.resto_sessions.find? (fun s => decide (s.chat_id = chat ∧ s.status = "open"))

/-- Same query with `ORDER BY id DESC LIMIT 1`: the last matching row, since
rows are stored in ascending id order. -/
def findOpenRestoLatest (db : DB) (chat : ℤ) : Option RestoSession :=
  (db.resto_sessions.filter (fun s => decide (s.chat_id = chat ∧ s.status = "open"))).getLast?

/-- `/newbill` (src/app.py lines 258-286): refuse if an open bill exists in
this chat, else insert a new open bill. -/
def newbill (db : DB) (chat user : ℤ) (uname : String) : DB × Outcome :=
  match findOpenBill db chat with
  | some _ => (db, .alreadyOpen)
  | none =>
    ({ db with
        bills := db.bills ++ [⟨db.next_bill_id, chat, user, uname, none, "open"⟩],
        next_bill_id := db.next_bill_id + 1 }, .createdBill)

/-- `/resto` (src/app.py lines 368-392): refuse if an open resto session
exists in this chat, else insert a new open session. -/
def resto (db : DB) (chat user : ℤ) (uname : String) : DB × Outcome :=
  match findOpenResto db chat with
  | some _ => (db, .alreadyOpen)
  | none =>
    ({ db with
        resto_sessions := db.resto_sessions ++
          [⟨db.next_session_id, chat, user, uname, none, "open"⟩],
        next_session_id := db.next_session_id + 1 }, .createdResto)

/-- `join_bill_callback` (src/app.py lines 288-323): look the bill up by id,
refuse when missing or closed, treat a duplicate `(bill_id, user_id)` insert
(the caught `IntegrityError`) as a no-op. -/
def join_bill_callback (db : DB) (bill_id : ℕ) (user : ℤ) (uname : String) : DB × Outcome :=
  match db.bills.find? (fun b => decide (b.id = bill_id)) with
  | none => (db, .sessionClosed)
  | some b =>
    if b.status ≠ "open" then (db, .sessionClosed)
    else if db.bill_participants.any (fun p => decide (p.bill_id = bill_id ∧ p.user_id = user)) then
      (db, .alreadyJoined)
    else
      ({ db with bill_participants := db.bill_participants ++ [⟨bill_id, user, uname⟩] },
        .joined)

/-- Python `str.strip()`: drop leading and trailing whitespace. -/
def pyStrip (s : String) : String :=
  String.mk (((s.data.dropWhile (fun c => c.isWhitespace)).reverse.dropWhile
    (fun c => c.isWhitespace)).reverse)

/-- Python `text.rsplit(maxsplit=1)` restricted to the handler's use: on an
already-stripped string, split at the last maximal whitespace run and require
exactly two parts (`len(parts_) == 2`); otherwise `none`. -/
def rsplitLast (s : String) : Option (String × String) :=
  let rev := s.data.reverse
  let amountRev := rev.takeWhile (fun c => !c.isWhitespace)
  let rest := rev.dropWhile (fun c => !c.isWhitespace)
  let descRev := rest.dropWhile (fun c => c.isWhitespace)
  if descRev.isEmpty then none
  else some (String.mk descRev.reverse, String.mk amountRev.reverse)

/-- `amount_str.replace(" ", "").replace(",", "")` (src/app.py line 353). -/
def stripSpacesCommas (s : String) : String :=
  String.mk (s.data.filter (fun c => ¬ (c = ' ' ∨ c = ',')))

/-- Value of a digit run. -/
def digitsVal (cs : List Char) : ℕ :=
  cs.foldl (fun acc c => acc * 10 + (c.toNat - '0'.toNat)) 0

/-- Modelled fragment of Python `float(s)`: an optional sign followed by
decimal digits with at most one decimal point and at least one digit.
Exponents, underscores, `inf`/`nan` are outside the model (it answers `none`
on them); the handler only needs that signed decimals parse to their value
and that non-numeric tokens fail. -/
def pyFloat? (s : String) : Option ℚ :=
  let step : ℚ → List Char → Option ℚ := fun sgn rest =>
    let intPart := rest.takeWhile (fun c => c.isDigit)
    match rest.dropWhile (fun c => c.isDigit) with
    | [] => if intPart.isEmpty then none else some (sgn * (digitsVal intPart : ℚ))
    | '.' :: frac =>
      if frac.all (fun c => c.isDigit) && !(intPart.isEmpty && frac.isEmpty) then
        some (sgn * ((digitsVal intPart : ℚ) + (digitsVal frac : ℚ) / (10 : ℚ) ^ frac.length))
      else none
    | _ => none
  match s.data with
  | '-' :: r => step (-1) r
  | '+' :: r => step 1 r
  | r => step 1 r

/-- `handle_expense` (src/app.py lines 325-365): needs an open bill in the
chat and the sender joined; splits the stripped text into description and
amount token; any token `float()` accepts is recorded as-is (there is no
positivity check). -/
def handle_expense (db : DB) (chat user : ℤ) (uname : String) (text : String) :
    DB × Outcome :=
  match findOpenBill db chat with
  | none => (db, .noOpenSession)
  | some b =>
    if ¬ db.bill_participants.any (fun p => decide (p.bill_id = b.id ∧ p.user_id = user)) then
      (db, .notAParticipant)
    else
      match rsplitLast (pyStrip text) with
      | none => (db, .badFormat)
      | some (descr, amtStr) =>
        match pyFloat? (stripSpacesCommas amtStr) with
        | none => (db, .invalidAmount)
        | some a =>
          ({ db with expenses := db.expenses ++ [⟨b.id, user, uname, descr, a⟩] },
            .expenseAdded)

/-- One candidate item from the extraction service's JSON payload: `name` is
the `"name"` field when present, `price` the number when present and
parseable (Python coerces whatever is missing, falsy or unparseable to `0`),
`quantity` likewise (coerced to `1`). -/
structure RawItem where
  name : Option String
  price : Option ℚ
  quantity : Option ℤ
deriving Repr, DecidableEq

/-- The per-item validation of `handle_receipt_photo`'s insert loop
(src/app.py lines 483-494): trim the name (falsy name → `""`), coerce the
price (missing/falsy/unparseable → `0`) and quantity
(`int(item.get("quantity", 1) or 1)`, so missing or `0` → `1`); drop the
item unless the trimmed name is nonempty and the price positive. -/
def validItem (it : RawItem) : Option (String × ℚ × ℤ) :=
  let name := pyStrip (it.name.getD "")
  let price := it.price.getD 0
  let qty := match it.quantity with
    | none => 1
    | some q => if q = 0 then 1 else q
  if name = "" ∨ price ≤ 0 then none else some (name, price, qty)

/-- The `resto_items` rows inserted for the surviving items, with fresh
sequential ids. -/
def ingestRows (sid startId : ℕ) (raw : List RawItem) : List RestoItem :=
  (raw.filterMap validItem).enum.map
    (fun p => ⟨startId + p.1, sid, p.2.1, p.2.2.1, p.2.2.2, false⟩)

/-- `handle_receipt_photo` (src/app.py lines 394-507), from the point where
the extraction service has answered: needs an open resto session, the sender
must be the creator, the session must have no items yet, the candidate list
must be nonempty; then the validated items are bulk-inserted (even when none
survives validation). -/
def handle_receipt_photo (db : DB) (chat user : ℤ) (raw : List RawItem) : DB × Outcome :=
  match findOpenResto db chat with
  | none => (db, .noOpenSession)
  | some s =>
    if user ≠ s.creator_id then (db, .notCreator)
    else if 0 < (db.resto_items.filter (fun ri => decide (ri.session_id = s.id))).length then
      (db, .alreadyIngested)
    else if raw.isEmpty then (db, .noItemsRecognized)
    else
      ({ db with
          resto_items := db.resto_items ++ ingestRows s.id db.next_item_id raw,
          next_item_id := db.next_item_id + (raw.filterMap validItem).length },
        .receiptProcessed)

/-- The item-toggle part of `handle_item_choice` (src/app.py lines 545-595):
find the item's session, refuse when missing or closed; then delete the
matching `(item_id, user_id)` choice rows if any exist, else insert one. -/
def handle_item_choice (db : DB) (item_id : ℕ) (user : ℤ) (uname : String) : DB × Outcome :=
  match db.resto_items.find? (fun ri => decide (ri.id = item_id)) with
  | none => (db, .sessionClosed)
  | some ri =>
    match db.resto_sessions.find? (fun rs => decide (rs.id = ri.session_id)) with
    | none => (db, .sessionClosed)
    | some rs =>
      if rs.status ≠ "open" then (db, .sessionClosed)
      else if db.resto_choices.any (fun rc => decide (rc.item_id = item_id ∧ rc.user_id = user)) then
        let remaining :=
          db.resto_choices.filter (fun rc => !decide (rc.item_id = item_id ∧ rc.user_id = user))
        ({ db with resto_choices := remaining }, .toggledOff)
      else
        ({ db with resto_choices := db.resto_choices ++ [⟨item_id, user, uname⟩] }, .toggledOn)

/-- Python dict insert: overwrite the value when the key exists (keeping key
order), else append. -/
def dictInsert (l : List (ℤ × String)) (k : ℤ) (v : String) : List (ℤ × String) :=
  if l.any (fun q => decide (q.1 = k)) then
    l.map (fun q => if q.1 = k then (q.1, v) else q)
  else l ++ [(k, v)]

/-- The `{row[0]: row[1] for row in rows}` dict comprehension: keys in first
occurrence order, each key holding the value of its last occurrence. -/
def dictOfRows (rows : List (ℤ × String)) : List (ℤ × String) :=
  rows.foldl (fun acc p => dictInsert acc p.1 p.2) []

/-- The participant dict computed by `close_resto` (src/app.py lines
683-689): every user holding a choice row for an item of this session. -/
def restoParticipants (db : DB) (sid : ℕ) : List (ℤ × String) :=
  dictOfRows ((db.resto_choices.filter (fun rc =>
    db.resto_items.any (fun ri => decide (ri.id = rc.item_id ∧ ri.session_id = sid)))).map
      (fun rc => (rc.user_id, rc.username)))

/-- The `SplitItem` view of a session's items: each `resto_items` row of the
session together with the user ids of its choice rows. -/
def splitItemsOf (db : DB) (sid : ℕ) : List SplitItem :=
  (db.resto_items.filter (fun ri => decide (ri.session_id = sid))).map (fun ri =>
    ⟨ri.price, ri.quantity, ri.is_shared,
      (db.resto_choices.filter (fun rc => decide (rc.item_id = ri.id))).map
        (fun rc => rc.user_id)⟩)

/-- The participant dict of `close_resto` after the creator fallback
(src/app.py lines 689-694): the claimants of the session's items, plus the
creator when they claimed nothing. -/
def closeRestoParticipants (db : DB) (sid : ℕ) (creator_id : ℤ) (creator_name : String) :
    List (ℤ × String) :=
  let ps0 := restoParticipants db sid
  if ps0.any (fun q => decide (q.1 = creator_id)) then ps0
  else ps0 ++ [(creator_id, creator_name)]

/-- `close_resto` (src/app.py lines 679-748): compute the participant dict,
refuse when it is empty, otherwise compute the per-user totals (emitted as a
message, not stored) and mark the session closed. -/
def close_resto (db : DB) (sid : ℕ) (now : ℕ) : DB × Outcome :=
  match db.resto_sessions.find? (fun s => decide (s.id = sid)) with
  | none => (db, .missingSession)
  | some s =>
    let ps := closeRestoParticipants db sid s.creator_id s.creator_username
    if ps.isEmpty then (db, .noParticipants)
    else
      let _totals := restoUserTotals (ps.map Prod.fst) (splitItemsOf db sid)
      ({ db with resto_sessions := db.resto_sessions.map (fun t =>
          if t.id = sid then { t with status := "closed", closed_at := some now } else t) },
        .closedResto)

/-- `close_newbill` (src/app.py lines 633-677): refuse when the bill has no
participants or no expenses; otherwise compute balances and the settlement
(emitted, not stored) and mark the bill closed. -/
def close_newbill (db : DB) (bill_id : ℕ) (now : ℕ) : DB × Outcome :=
  let parts := db.bill_participants.filter (fun p => decide (p.bill_id = bill_id))
  if parts.isEmpty then (db, .noParticipants)
  else
    let exps := db.expenses.filter (fun e => decide (e.bill_id = bill_id))
    if exps.isEmpty then (db, .noExpenses)
    else
      let partDict := dictOfRows (parts.map (fun p => (p.user_id, p.username)))
      let total := (exps.map (fun e => e.amount)).sum
      let perPerson := total / (partDict.length : ℚ)
      let userPaid : ℤ → ℚ := fun uid =>
        ((exps.filter (fun e => decide (e.user_id = uid))).map (fun e => e.amount)).sum
      let balances := partDict.map (fun q => (q.1, userPaid q.1 - perPerson))
      let _txs := minimize_transactions balances
      ({ db with bills := db.bills.map (fun b =>
          if b.id = bill_id then { b with status := "closed", closed_at := some now } else b) },
        .closedBill)

/-- `/closebill` (src/app.py lines 599-631): an open bill takes precedence;
only its creator may close it; otherwise an open resto session, closed only
by its creator; otherwise there is nothing to close. -/
def closebill (db : DB) (chat user : ℤ) (now : ℕ) : DB × Outcome :=
  match findOpenBill db chat with
  | some b =>
    if user ≠ b.creator_id then (db, .notCreator)
    else close_newbill db b.id now
  | none =>
    match findOpenResto db chat with
    | some s =>
      if user ≠ s.creator_id then (db, .notCreator)
      else close_resto db s.id now
    | none => (db, .noOpenSessions)

/-- The `close_resto` inline-button branch of `handle_item_choice`
(src/app.py lines 524-543): latest open resto session of the chat, creator
only. -/
def close_resto_button (db : DB) (chat user : ℤ) (now : ℕ) : DB × Outcome :=
  match findOpenRestoLatest db chat with
  | none => (db, .noOpenSessions)
  | some s =>
    if user ≠ s.creator_id then (db, .notCreator)
    else close_resto db s.id now

/-- One user-visible operation on the bot. -/
inductive Op where
  | newbill (chat user : ℤ) (uname : String)
  | resto (chat user : ℤ) (uname : String)
  | join (bill_id : ℕ) (user : ℤ) (uname : String)
  | expense (chat user : ℤ) (uname : String) (text : String)
  | ingest (chat user : ℤ) (raw : List RawItem)
  | toggle (item_id : ℕ) (user : ℤ) (uname : String)
  | closebill (chat user : ℤ) (now : ℕ)
  | closeRestoBtn (chat user : ℤ) (now : ℕ)
deriving Repr

/-- Dispatch one operation to its handler. -/
def applyOp (op : Op) (db : DB) : DB × Outcome :=
  match op with
  | .newbill chat user uname => newbill db chat user uname
  | .resto chat user uname => resto db chat user uname
  | .join bill_id user uname => join_bill_callback db bill_id user uname
  | .expense chat user uname text => handle_expense db chat user uname text
  | .ingest chat user raw => handle_receipt_photo db chat user raw
  | .toggle item_id user uname => handle_item_choice db item_id user uname
  | .closebill chat user now => closebill db chat user now
  | .closeRestoBtn chat user now => close_resto_button db chat user now

/-- Run a sequence of operations from the fresh database. -/
def execOps (ops : List Op) : DB :=
  ops.foldl (fun db op => (applyOp op db).1) DB.empty

/-- Number of open bills of a chat. -/
def countOpenBills (db : DB) (chat : ℤ) : ℕ :=
  (db.bills.filter (fun b => decide (b.chat_id = chat ∧ b.status = "open"))).length

/-- Number of open resto sessions of a chat. -/
def countOpenRestos (db : DB) (chat : ℤ) : ℕ :=
  (db.resto_sessions.filter (fun s => decide (s.chat_id = chat ∧ s.status = "open"))).length

/-- The row update performed by `UPDATE bills SET status='closed' ...`. -/
def closeBillRow (bid : ℕ) (now : ℕ) (b : Bill) : Bill :=
  if b.id = bid then { b with status := "closed", closed_at := some now } else b

/-- The row update performed by `UPDATE resto_sessions SET status='closed' ...`. -/
def closeRestoRow (sid : ℕ) (now : ℕ) (s : RestoSession) : RestoSession :=
  if s.id = sid then { s with status := "closed", closed_at := some now } else s

lemma newbill_spec (db : DB) (c u : ℤ) (n : String) :
    ((∃ b, findOpenBill db c = some b) ∧ newbill db c u n = (db, .alreadyOpen)) ∨
    (findOpenBill db c = none ∧ newbill db c u n =
      ({ db with
          bills := db.bills ++ [⟨db.next_bill_id, c, u, n, none, "open"⟩],
          next_bill_id := db.next_bill_id + 1 }, .createdBill)) := by
  unfold newbill
  cases h : findOpenBill db c with
  | none => exact Or.inr ⟨rfl, rfl⟩
  | some b => exact Or.inl ⟨⟨b, rfl⟩, rfl⟩

lemma resto_spec (db : DB) (c u : ℤ) (n : String) :
    ((∃ s, findOpenResto db c = some s) ∧ resto db c u n = (db, .alreadyOpen)) ∨
    (findOpenResto db c = none ∧ resto db c u n =
      ({ db with
          resto_sessions := db.resto_sessions ++ [⟨db.next_session_id, c, u, n, none, "open"⟩],
          next_session_id := db.next_session_id + 1 }, .createdResto)) := by
  unfold resto
  cases h : findOpenResto db c with
  | none => exact Or.inr ⟨rfl, rfl⟩
  | some s => exact Or.inl ⟨⟨s, rfl⟩, rfl⟩

lemma join_spec (db : DB) (bid : ℕ) (u : ℤ) (n : String) :
    (join_bill_callback db bid u n).1 = db ∨
    (∃ b, db.bills.find? (fun b => decide (b.id = bid)) = some b ∧ b.status = "open" ∧
      (join_bill_callback db bid u n).1 =
        { db with bill_participants := db.bill_participants ++ [⟨bid, u, n⟩] }) := by
  unfold join_bill_callback
  cases h : db.bills.find? (fun b => decide (b.id = bid)) with
  | none => exact Or.inl rfl
  | some b =>
    dsimp only
    by_cases hs : b.status ≠ "open"
    · rw [if_pos hs]
      exact Or.inl rfl
    · rw [if_neg hs]
      push_neg at hs
      by_cases hj : db.bill_participants.any (fun p => decide (p.bill_id = bid ∧ p.user_id = u))
      · rw [if_pos hj]
        exact Or.inl rfl
      · rw [if_neg hj]
        exact Or.inr ⟨b, rfl, hs, rfl⟩

lemma expense_spec (db : DB) (c u : ℤ) (n t : String) :
    (handle_expense db c u n t).1 = db ∨
    (∃ b descr a, findOpenBill db c = some b ∧
      (handle_expense db c u n t).1 =
        { db with expenses := db.expenses ++ [⟨b.id, u, n, descr, a⟩] }) := by
  unfold handle_expense
  cases h : findOpenBill db c with
  | none => exact Or.inl rfl
  | some b =>
    dsimp only
    by_cases hp : ¬ db.bill_participants.any (fun p => decide (p.bill_id = b.id ∧ p.user_id = u))
    · rw [if_pos hp]
      exact Or.inl rfl
    · rw [if_neg hp]
      cases hr : rsplitLast (pyStrip t) with
      | none => exact Or.inl rfl
      | some pr =>
        obtain ⟨d0, a0⟩ := pr
        dsimp only
        cases hf : pyFloat? (stripSpacesCommas a0) with
        | none => exact Or.inl rfl
        | some a => exact Or.inr ⟨b, d0, a, rfl, rfl⟩

lemma ingest_spec (db : DB) (c u : ℤ) (raw : List RawItem) :
    (handle_receipt_photo db c u raw).1 = db ∨
    (∃ s, findOpenResto db c = some s ∧
      (db.resto_items.filter (fun ri => decide (ri.session_id = s.id))).length = 0 ∧
      (handle_receipt_photo db c u raw).1 =
        { db with
            resto_items := db.resto_items ++ ingestRows s.id db.next_item_id raw,
            next_item_id := db.next_item_id + (raw.filterMap validItem).length }) := by
  unfold handle_receipt_photo
  cases h : findOpenResto db c with
  | none => exact Or.inl rfl
  | some s =>
    dsimp only
    by_cases hc : u ≠ s.creator_id
    · rw [if_pos hc]
      exact Or.inl rfl
    · rw [if_neg hc]
      by_cases hi : 0 < (db.resto_items.filter (fun ri => decide (ri.session_id = s.id))).length
      · rw [if_pos hi]
        exact Or.inl rfl
      · rw [if_neg hi]
        by_cases he : raw.isEmpty
        · rw [if_pos he]
          exact Or.inl rfl
        · rw [if_neg he]
          exact Or.inr ⟨s, rfl, by omega, rfl⟩

lemma toggle_spec (db : DB) (iid : ℕ) (u : ℤ) (n : String) :
    (handle_item_choice db iid u n).1 = db ∨
    (∃ ri rs, db.resto_items.find? (fun ri => decide (ri.id = iid)) = some ri ∧
      db.resto_sessions.find? (fun rs => decide (rs.id = ri.session_id)) = some rs ∧
      rs.status = "open" ∧
      ((handle_item_choice db iid u n).1 =
          { db with resto_choices :=
              db.resto_choices.filter (fun rc => !decide (rc.item_id = iid ∧ rc.user_id = u)) } ∨
       (handle_item_choice db iid u n).1 =
          { db with resto_choices := db.resto_choices ++ [⟨iid, u, n⟩] })) := by
  unfold handle_item_choice
  cases h1 : db.resto_items.find? (fun ri => decide (ri.id = iid)) with
  | none => exact Or.inl rfl
  | some ri =>
    dsimp only
    cases h2 : db.resto_sessions.find? (fun rs => decide (rs.id = ri.session_id)) with
    | none => exact Or.inl rfl
    | some rs =>
      dsimp only
      by_cases hs : rs.status ≠ "open"
      · rw [if_pos hs]
        exact Or.inl rfl
      · rw [if_neg hs]
        push_neg at hs
        by_cases ht : db.resto_choices.any (fun rc => decide (rc.item_id = iid ∧ rc.user_id = u))
        · rw [if_pos ht]
          exact Or.inr ⟨ri, rs, rfl, h2, hs, Or.inl rfl⟩
        · rw [if_neg ht]
          exact Or.inr ⟨ri, rs, rfl, h2, hs, Or.inr rfl⟩

lemma close_newbill_spec (db : DB) (bid now : ℕ) :
    (close_newbill db bid now).1 = db ∨
    (close_newbill db bid now).1 = { db with bills := db.bills.map (closeBillRow bid now) } := by
  unfold close_newbill closeBillRow
  dsimp only
  by_cases h1 : (db.bill_participants.filter (fun p => decide (p.bill_id = bid))).isEmpty
  · rw [if_pos h1]
    exact Or.inl rfl
  · rw [if_neg h1]
    by_cases h2 : (db.expenses.filter (fun e => decide (e.bill_id = bid))).isEmpty
    · rw [if_pos h2]
      exact Or.inl rfl
    · rw [if_neg h2]
      exact Or.inr rfl

lemma close_resto_spec (db : DB) (sid now : ℕ) :
    (close_resto db sid now).1 = db ∨
    (close_resto db sid now).1 =
      { db with resto_sessions := db.resto_sessions.map (closeRestoRow sid now) } := by
  unfold close_resto closeRestoRow
  cases h : db.resto_sessions.find? (fun s => decide (s.id = sid)) with
  | none => exact Or.inl rfl
  | some s =>
    dsimp only
    by_cases h1 : (closeRestoParticipants db sid s.creator_id s.creator_username).isEmpty
    · rw [if_pos h1]
      exact Or.inl rfl
    · rw [if_neg h1]
      exact Or.inr rfl

lemma closebill_spec (db : DB) (c u : ℤ) (now : ℕ) :
    (closebill db c u now).1 = db ∨
    (∃ b, findOpenBill db c = some b ∧ u = b.creator_id ∧
      closebill db c u now = close_newbill db b.id now) ∨
    (∃ s, findOpenBill db c = none ∧ findOpenResto db c = some s ∧ u = s.creator_id ∧
      closebill db c u now = close_resto db s.id now) := by
  unfold closebill
  cases h : findOpenBill db c with
  | some b =>
    dsimp only
    by_cases hc : u ≠ b.creator_id
    · rw [if_pos hc]
      exact Or.inl rfl
    · rw [if_neg hc]
      push_neg at hc
      exact Or.inr (Or.inl ⟨b, rfl, hc, rfl⟩)
  | none =>
    cases h2 : findOpenResto db c with
    | none => exact Or.inl rfl
    | some s =>
      dsimp only
      by_cases hc : u ≠ s.creator_id
      · rw [if_pos hc]
        exact Or.inl rfl
      · rw [if_neg hc]
        push_neg at hc
        exact Or.inr (Or.inr ⟨s, rfl, rfl, hc, rfl⟩)

lemma close_resto_button_spec (db : DB) (c u : ℤ) (now : ℕ) :
    (close_resto_button db c u now).1 = db ∨
    (∃ s, findOpenRestoLatest db c = some s ∧ u = s.creator_id ∧
      close_resto_button db c u now = close_resto db s.id now) := by
  unfold close_resto_button
  cases h : findOpenRestoLatest db c with
  | none => exact Or.inl rfl
  | some s =>
    dsimp only
    by_cases hc : u ≠ s.creator_id
    · rw [if_pos hc]
      exact Or.inl rfl
    · rw [if_neg hc]
      push_neg at hc
      exact Or.inr ⟨s, rfl, hc, rfl⟩

/-- At most one open session of each kind per chat. -/
def chatInv (db : DB) : Prop :=
  ∀ chat : ℤ, countOpenBills db chat ≤ 1 ∧ countOpenRestos db chat ≤ 1

lemma chatInv_of_tables {db db' : DB} (hb : db'.bills = db.bills)
    (hr : db'.resto_sessions = db.resto_sessions) (h : chatInv db) : chatInv db' := by
  intro chat
  unfold countOpenBills countOpenRestos
  rw [hb, hr]
  exact h chat

lemma countOpenBills_eq_zero {db : DB} {chat : ℤ} (h : findOpenBill db chat = none) :
    countOpenBills db chat = 0 := by
  unfold countOpenBills
  unfold findOpenBill at h
  rw [List.find?_eq_none] at h
  rw [List.filter_eq_nil_iff.mpr h]
  rfl

lemma countOpenRestos_eq_zero {db : DB} {chat : ℤ} (h : findOpenResto db chat = none) :
    countOpenRestos db chat = 0 := by
  unfold countOpenRestos
  unfold findOpenResto at h
  rw [List.find?_eq_none] at h
  rw [List.filter_eq_nil_iff.mpr h]
  rfl

lemma filter_length_map_le {α : Type} (l : List α) (f : α → α) (p : α → Bool)
    (hf : ∀ x, p (f x) = true → p x = true) :
    ((l.map f).filter p).length ≤ (l.filter p).length := by
  induction l with
  | nil => simp
  | cons a l ih =>
    simp only [List.map_cons, List.filter_cons]
    by_cases h : p (f a) = true
    · rw [if_pos h, if_pos (hf a h)]
      simpa using ih
    · rw [if_neg h]
      split
      · exact le_trans ih (by simp)
      · exact ih

lemma countOpenBills_close_le (db : DB) (bid now : ℕ) (chat : ℤ) :
    countOpenBills { db with bills := db.bills.map (closeBillRow bid now) } chat ≤
      countOpenBills db chat := by
  unfold countOpenBills
  apply filter_length_map_le
  intro b hb
  simp only [decide_eq_true_eq] at hb ⊢
  unfold closeBillRow at hb
  split at hb
  · simp at hb
  · exact hb

lemma countOpenRestos_close_le (db : DB) (sid now : ℕ) (chat : ℤ) :
    countOpenRestos { db with resto_sessions := db.resto_sessions.map (closeRestoRow sid now) }
      chat ≤ countOpenRestos db chat := by
  unfold countOpenRestos
  apply filter_length_map_le
  intro s hs
  simp only [decide_eq_true_eq] at hs ⊢
  unfold closeRestoRow at hs
  split at hs
  · simp at hs
  · exact hs

lemma chatInv_preserved (op : Op) (db : DB) (h : chatInv db) : chatInv (applyOp op db).1 := by
  cases op with
  | newbill c u n =>
    show chatInv (newbill db c u n).1
    rcases newbill_spec db c u n with ⟨_, heq⟩ | ⟨hnone, heq⟩
    · rw [heq]
      exact h
    · rw [heq]
      intro chat
      refine ⟨?_, (h chat).2⟩
      show (List.filter (fun b => decide (b.chat_id = chat ∧ b.status = "open"))
          (db.bills ++ [⟨db.next_bill_id, c, u, n, none, "open"⟩])).length ≤ 1
      rw [List.filter_append, List.length_append]
      by_cases hc : c = chat
      · subst hc
        have h0 : countOpenBills db c = 0 := countOpenBills_eq_zero hnone
        unfold countOpenBills at h0
        rw [h0]
        have h1 := List.length_filter_le (fun b => decide (b.chat_id = c ∧ b.status = "open"))
          [(⟨db.next_bill_id, c, u, n, none, "open"⟩ : Bill)]
        simp only [List.length_cons, List.length_nil] at h1
        omega
      · have hz : (List.filter (fun b => decide (b.chat_id = chat ∧ b.status = "open"))
            [(⟨db.next_bill_id, c, u, n, none, "open"⟩ : Bill)]).length = 0 := by
          simp [hc]
        rw [hz, Nat.add_zero]
        exact (h chat).1
  | resto c u n =>
    show chatInv (resto db c u n).1
    rcases resto_spec db c u n with ⟨_, heq⟩ | ⟨hnone, heq⟩
    · rw [heq]
      exact h
    · rw [heq]
      intro chat
      refine ⟨(h chat).1, ?_⟩
      show (List.filter (fun s => decide (s.chat_id = chat ∧ s.status = "open"))
          (db.resto_sessions ++ [⟨db.next_session_id, c, u, n, none, "open"⟩])).length ≤ 1
      rw [List.filter_append, List.length_append]
      by_cases hc : c = chat
      · subst hc
        have h0 : countOpenRestos db c = 0 := countOpenRestos_eq_zero hnone
        unfold countOpenRestos at h0
        rw [h0]
        have h1 := List.length_filter_le (fun s => decide (s.chat_id = c ∧ s.status = "open"))
          [(⟨db.next_session_id, c, u, n, none, "open"⟩ : RestoSession)]
        simp only [List.length_cons, List.length_nil] at h1
        omega
      · have hz : (List.filter (fun s => decide (s.chat_id = chat ∧ s.status = "open"))
            [(⟨db.next_session_id, c, u, n, none, "open"⟩ : RestoSession)]).length = 0 := by
          simp [hc]
        rw [hz, Nat.add_zero]
        exact (h chat).2
  | join bid u n =>
    show chatInv (join_bill_callback db bid u n).1
    rcases join_spec db bid u n with heq | ⟨b, _, _, heq⟩ <;>
      exact chatInv_of_tables (by rw [heq]) (by rw [heq]) h
  | expense c u n t =>
    show chatInv (handle_expense db c u n t).1
    rcases expense_spec db c u n t with heq | ⟨b, d0, a, _, heq⟩ <;>
      exact chatInv_of_tables (by rw [heq]) (by rw [heq]) h
  | ingest c u raw =>
    show chatInv (handle_receipt_photo db c u raw).1
    rcases ingest_spec db c u raw with heq | ⟨s, _, _, heq⟩ <;>
      exact chatInv_of_tables (by rw [heq]) (by rw [heq]) h
  | toggle iid u n =>
    show chatInv (handle_item_choice db iid u n).1
    rcases toggle_spec db iid u n with heq | ⟨ri, rs, _, _, _, heq | heq⟩ <;>
      exact chatInv_of_tables (by rw [heq]) (by rw [heq]) h
  | closebill c u now =>
    show chatInv (closebill db c u now).1
    rcases closebill_spec db c u now with heq | ⟨b, _, _, heq⟩ | ⟨s, _, _, _, heq⟩
    · exact chatInv_of_tables (by rw [heq]) (by rw [heq]) h
    · rw [heq]
      rcases close_newbill_spec db b.id now with heq2 | heq2
      · rw [heq2]
        exact h
      · rw [heq2]
        intro chat
        exact ⟨le_trans (countOpenBills_close_le db b.id now chat) (h chat).1, (h chat).2⟩
    · rw [heq]
      rcases close_resto_spec db s.id now with heq2 | heq2
      · rw [heq2]
        exact h
      · rw [heq2]
        intro chat
        exact ⟨(h chat).1, le_trans (countOpenRestos_close_le db s.id now chat) (h chat).2⟩
  | closeRestoBtn c u now =>
    show chatInv (close_resto_button db c u now).1
    rcases close_resto_button_spec db c u now with heq | ⟨s, _, _, heq⟩
    · exact chatInv_of_tables (by rw [heq]) (by rw [heq]) h
    · rw [heq]
      rcases close_resto_spec db s.id now with heq2 | heq2
      · rw [heq2]
        exact h
      · rw [heq2]
        intro chat
        exact ⟨(h chat).1, le_trans (countOpenRestos_close_le db s.id now chat) (h chat).2⟩

lemma chatInv_execOps (ops : List Op) : chatInv (execOps ops) := by
  have hgen : ∀ (l : List Op) (db : DB), chatInv db →
      chatInv (l.foldl (fun db op => (applyOp op db).1) db) := by
    intro l
    induction l with
    | nil => intro db h; exact h
    | cons op l ih =>
      intro db h
      exact ih _ (chatInv_preserved op db h)
  exact hgen ops DB.empty (by intro chat; exact ⟨by simp [countOpenBills, DB.empty],
    by simp [countOpenRestos, DB.empty]⟩)

/-- C1 (counterexample): starting from the fresh database, `/newbill` in chat
1 followed by `/resto` in the same chat leaves one open bill AND one open
resto session in that chat, and the `/resto` creation succeeds (it is not
refused with AlreadyOpen) even though a session of the other kind is open:
`newbill` checks only `bills`, `resto` only `resto_sessions`. -/
theorem single_open_cross_kind_cex :
    countOpenBills (execOps [Op.newbill 1 7 "a", Op.resto 1 7 "a"]) 1 = 1 ∧
    countOpenRestos (execOps [Op.newbill 1 7 "a", Op.resto 1 7 "a"]) 1 = 1 ∧
    (applyOp (Op.resto 1 7 "a") (execOps [Op.newbill 1 7 "a"])).2 = Outcome.createdResto := by
  refine ⟨rfl, rfl, rfl⟩

/-- C1 (amended): the single-open-session invariant holds per kind, not
across kinds: every reachable database has at most one open bill and at most
one open resto session per chat; `newbill` fails with AlreadyOpen exactly
when an open bill exists in the chat, and `resto` exactly when an open resto
session exists, each ignoring the other kind. -/
theorem single_open_per_kind (ops : List Op) (chat : ℤ) :
    countOpenBills (execOps ops) chat ≤ 1 ∧ countOpenRestos (execOps ops) chat ≤ 1 ∧
    (∀ (db : DB) (u : ℤ) (n : String), (∃ b, findOpenBill db chat = some b) →
      newbill db chat u n = (db, Outcome.alreadyOpen)) ∧
    (∀ (db : DB) (u : ℤ) (n : String), (∃ s, findOpenResto db chat = some s) →
      resto db chat u n = (db, Outcome.alreadyOpen)) ∧
    (∀ (db : DB) (u : ℤ) (n : String), findOpenBill db chat = none →
      (newbill db chat u n).2 = Outcome.createdBill) ∧
    (∀ (db : DB) (u : ℤ) (n : String), findOpenResto db chat = none →
      (resto db chat u n).2 = Outcome.createdResto) := by
  refine ⟨(chatInv_execOps ops chat).1, (chatInv_execOps ops chat).2, ?_, ?_, ?_, ?_⟩
  · intro db u n h
    rcases newbill_spec db chat u n with ⟨_, heq⟩ | ⟨hnone, _⟩
    · exact heq
    · obtain ⟨b, hb⟩ := h
      rw [hnone] at hb
      cases hb
  · intro db u n h
    rcases resto_spec db chat u n with ⟨_, heq⟩ | ⟨hnone, _⟩
    · exact heq
    · obtain ⟨s, hs⟩ := h
      rw [hnone] at hs
      cases hs
  · intro db u n h
    rcases newbill_spec db chat u n with ⟨⟨b, hb⟩, _⟩ | ⟨_, heq⟩
    · rw [h] at hb
      cases hb
    · rw [heq]
  · intro db u n h
    rcases resto_spec db chat u n with ⟨⟨s, hs⟩, _⟩ | ⟨_, heq⟩
    · rw [h] at hs
      cases hs
    · rw [heq]

/-- Witness for the amended C1 theorem: after one `/newbill` in chat 1, a
second `/newbill` by another user is refused with AlreadyOpen while `/resto`
still succeeds. -/
theorem single_open_per_kind_witness :
    newbill (execOps [Op.newbill 1 7 "a"]) 1 8 "b" =
      (execOps [Op.newbill 1 7 "a"], Outcome.alreadyOpen) ∧
    (resto (execOps [Op.newbill 1 7 "a"]) 1 8 "b").2 = Outcome.createdResto := by
  have h := single_open_per_kind [Op.newbill 1 7 "a"] 1
  constructor
  · exact h.2.2.1 (execOps [Op.newbill 1 7 "a"]) 8 "b"
      ⟨⟨1, 1, 7, "a", none, "open"⟩, rfl⟩
  · exact h.2.2.2.2.2 (execOps [Op.newbill 1 7 "a"]) 8 "b" rfl

/-- All stored rows belonging to bill `bid`: the bill rows themselves (with
status, timestamps), its participants and its expenses. -/
def billData (db : DB) (bid : ℕ) : List Bill × List BillParticipant × List Expense :=
  (db.bills.filter (fun b => decide (b.id = bid)),
   db.bill_participants.filter (fun p => decide (p.bill_id = bid)),
   db.expenses.filter (fun e => decide (e.bill_id = bid)))

/-- All stored rows belonging to resto session `sid`: the session rows, its
items and the choices attached to those items. -/
def restoData (db : DB) (sid : ℕ) : List RestoSession × List RestoItem × List RestoChoice :=
  (db.resto_sessions.filter (fun s => decide (s.id = sid)),
   db.resto_items.filter (fun ri => decide (ri.session_id = sid)),
   db.resto_choices.filter (fun rc =>
     db.resto_items.any (fun ri => decide (ri.id = rc.item_id ∧ ri.session_id = sid))))

/-- Well-formedness produced by autoincrement primary keys: stored ids are
below the next-id counters and item ids are distinct. -/
def wfIds (db : DB) : Prop :=
  (∀ b ∈ db.bills, b.id < db.next_bill_id) ∧
  (∀ s ∈ db.resto_sessions, s.id < db.next_session_id) ∧
  (∀ ri ∈ db.resto_items, ri.id < db.next_item_id) ∧
  (db.resto_items.map RestoItem.id).Nodup

/-- Bill `bid` exists and every stored row for it is closed. -/
def billClosed (db : DB) (bid : ℕ) : Prop :=
  (∃ b ∈ db.bills, b.id = bid) ∧ ∀ b ∈ db.bills, b.id = bid → b.status = "closed"

/-- Resto session `sid` exists and every stored row for it is closed. -/
def restoClosed (db : DB) (sid : ℕ) : Prop :=
  (∃ s ∈ db.resto_sessions, s.id = sid) ∧
  ∀ s ∈ db.resto_sessions, s.id = sid → s.status = "closed"

lemma findOpenBill_mem {db : DB} {chat : ℤ} {b : Bill} (h : findOpenBill db chat = some b) :
    b ∈ db.bills ∧ b.chat_id = chat ∧ b.status = "open" := by
  unfold findOpenBill at h
  have hm := List.mem_of_find?_eq_some h
  have hp := List.find?_some h
  simp only [decide_eq_true_eq] at hp
  exact ⟨hm, hp.1, hp.2⟩

lemma findOpenResto_mem {db : DB} {chat : ℤ} {s : RestoSession}
    (h : findOpenResto db chat = some s) :
    s ∈ db.resto_sessions ∧ s.chat_id = chat ∧ s.status = "open" := by
  unfold findOpenResto at h
  have hm := List.mem_of_find?_eq_some h
  have hp := List.find?_some h
  simp only [decide_eq_true_eq] at hp
  exact ⟨hm, hp.1, hp.2⟩

lemma findOpenRestoLatest_mem {db : DB} {chat : ℤ} {s : RestoSession}
    (h : findOpenRestoLatest db chat = some s) :
    s ∈ db.resto_sessions ∧ s.chat_id = chat ∧ s.status = "open" := by
  unfold findOpenRestoLatest at h
  have hm : s ∈ db.resto_sessions.filter (fun s => decide (s.chat_id = chat ∧ s.status = "open")) := by
    have hx : s ∈ (db.resto_sessions.filter
        (fun s => decide (s.chat_id = chat ∧ s.status = "open"))).getLast? :=
      Option.mem_def.mpr h
    obtain ⟨hne, heq⟩ := List.mem_getLast?_eq_getLast hx
    rw [heq]
    exact List.getLast_mem hne
  have hmem := List.mem_of_mem_filter hm
  have hp := List.of_mem_filter hm
  simp only [decide_eq_true_eq] at hp
  exact ⟨hmem, hp.1, hp.2⟩

lemma filter_append_singleton_false {α : Type} (l : List α) (x : α) (p : α → Bool)
    (hx : p x = false) : (l ++ [x]).filter p = l.filter p := by
  simp [List.filter_append, hx]

lemma filter_map_id_on {α : Type} (l : List α) (f : α → α) (p : α → Bool)
    (hp : ∀ x ∈ l, p (f x) = p x) (hid : ∀ x ∈ l, p x = true → f x = x) :
    (l.map f).filter p = l.filter p := by
  induction l with
  | nil => rfl
  | cons a l ih =>
    have ih' := ih (fun x hx => hp x (List.mem_cons_of_mem a hx))
      (fun x hx => hid x (List.mem_cons_of_mem a hx))
    simp only [List.map_cons, List.filter_cons]
    by_cases ha : p a = true
    · rw [hp a (List.mem_cons_self a l), if_pos ha, if_pos ha, hid a (List.mem_cons_self a l) ha,
        ih']
    · rw [hp a (List.mem_cons_self a l), if_neg ha, if_neg ha, ih']

lemma filter_filter_of_imp {α : Type} (l : List α) (p q : α → Bool)
    (h : ∀ x ∈ l, p x = true → q x = true) : (l.filter q).filter p = l.filter p := by
  induction l with
  | nil => rfl
  | cons a l ih =>
    have ih' := ih (fun x hx => h x (List.mem_cons_of_mem a hx))
    simp only [List.filter_cons]
    by_cases hq : q a = true
    · rw [if_pos hq]
      simp only [List.filter_cons]
      rw [ih']
    · rw [if_neg hq]
      have hpa : ¬ p a = true := fun hpa => hq (h a (List.mem_cons_self a l) hpa)
      rw [if_neg hpa, ih']

lemma ingestRows_session (sid startId : ℕ) (raw : List RawItem) :
    ∀ x ∈ ingestRows sid startId raw, x.session_id = sid := by
  intro x hx
  unfold ingestRows at hx
  obtain ⟨p, _, rfl⟩ := List.mem_map.mp hx
  rfl

lemma closeBillRow_id (bid now : ℕ) (b : Bill) : (closeBillRow bid now b).id = b.id := by
  unfold closeBillRow
  split <;> rfl

lemma closeRestoRow_id (sid now : ℕ) (s : RestoSession) :
    (closeRestoRow sid now s).id = s.id := by
  unfold closeRestoRow
  split <;> rfl

lemma filter_append_right_nil {α : Type} (l l' : List α) (p : α → Bool)
    (h : ∀ x ∈ l', p x = false) : (l ++ l').filter p = l.filter p := by
  have h0 : l'.filter p = [] :=
    List.filter_eq_nil_iff.mpr (fun a ha => by simp [h a ha])
  rw [List.filter_append, h0, List.append_nil]

lemma open_ne_closed_str {s : String} (h1 : s = "open") (h2 : s = "closed") : False := by
  rw [h1] at h2
  exact absurd h2 (by decide)

/-- C7: once a session of either kind is closed, every operation leaves all
of its stored rows (session row with status and timestamps, participants,
expenses, items, claims) exactly unchanged; in particular no second close
ever touches it. -/
theorem closed_session_frozen (op : Op) (db : DB) (hwf : wfIds db) :
    (∀ bid, billClosed db bid → billData (applyOp op db).1 bid = billData db bid) ∧
    (∀ sid, restoClosed db sid → restoData (applyOp op db).1 sid = restoData db sid) := by
  obtain ⟨hwb, hws, hwi, hwn⟩ := hwf
  cases op with
  | newbill c u n =>
    dsimp only [applyOp]
    rcases newbill_spec db c u n with ⟨_, heq⟩ | ⟨hnone, heq⟩
    · rw [heq]
      exact ⟨fun _ _ => rfl, fun _ _ => rfl⟩
    · rw [heq]
      refine ⟨?_, fun _ _ => rfl⟩
      intro bid hcl
      obtain ⟨⟨b, hbm, hbid⟩, _⟩ := hcl
      have hlt : bid < db.next_bill_id := hbid ▸ hwb b hbm
      unfold billData
      dsimp only
      have hx : decide ((⟨db.next_bill_id, c, u, n, none, "open"⟩ : Bill).id = bid) = false := by
        rw [decide_eq_false_iff_not]
        show ¬ db.next_bill_id = bid
        omega
      rw [filter_append_singleton_false db.bills _ (fun b => decide (b.id = bid)) hx]
  | resto c u n =>
    dsimp only [applyOp]
    rcases resto_spec db c u n with ⟨_, heq⟩ | ⟨hnone, heq⟩
    · rw [heq]
      exact ⟨fun _ _ => rfl, fun _ _ => rfl⟩
    · rw [heq]
      refine ⟨fun _ _ => rfl, ?_⟩
      intro sid hcl
      obtain ⟨⟨s, hsm, hsid⟩, _⟩ := hcl
      have hlt : sid < db.next_session_id := hsid ▸ hws s hsm
      unfold restoData
      dsimp only
      have hx : decide ((⟨db.next_session_id, c, u, n, none, "open"⟩ : RestoSession).id = sid)
          = false := by
        rw [decide_eq_false_iff_not]
        show ¬ db.next_session_id = sid
        omega
      rw [filter_append_singleton_false db.resto_sessions _ (fun s => decide (s.id = sid)) hx]
  | join jbid u n =>
    dsimp only [applyOp]
    rcases join_spec db jbid u n with heq | ⟨b, hfind, hopen, heq⟩
    · rw [heq]
      exact ⟨fun _ _ => rfl, fun _ _ => rfl⟩
    · rw [heq]
      refine ⟨?_, fun _ _ => rfl⟩
      intro bid hcl
      unfold billData
      dsimp only
      have hx : decide ((⟨jbid, u, n⟩ : BillParticipant).bill_id = bid) = false := by
        rw [decide_eq_false_iff_not]
        show ¬ jbid = bid
        intro hco
        subst hco
        have hbm := List.mem_of_find?_eq_some hfind
        have hbp := List.find?_some hfind
        simp only [decide_eq_true_eq] at hbp
        exact open_ne_closed_str hopen (hcl.2 b hbm hbp)
      rw [filter_append_singleton_false db.bill_participants _
        (fun p => decide (p.bill_id = bid)) hx]
  | expense c u n t =>
    dsimp only [applyOp]
    rcases expense_spec db c u n t with heq | ⟨b, d0, a, hfind, heq⟩
    · rw [heq]
      exact ⟨fun _ _ => rfl, fun _ _ => rfl⟩
    · rw [heq]
      refine ⟨?_, fun _ _ => rfl⟩
      intro bid hcl
      unfold billData
      dsimp only
      have hx : decide ((⟨b.id, u, n, d0, a⟩ : Expense).bill_id = bid) = false := by
        rw [decide_eq_false_iff_not]
        show ¬ b.id = bid
        intro hco
        obtain ⟨hbm, _, hopen⟩ := findOpenBill_mem hfind
        exact open_ne_closed_str hopen (hcl.2 b hbm hco)
      rw [filter_append_singleton_false db.expenses _ (fun e => decide (e.bill_id = bid)) hx]
  | ingest c u raw =>
    dsimp only [applyOp]
    rcases ingest_spec db c u raw with heq | ⟨s, hfind, hempty, heq⟩
    · rw [heq]
      exact ⟨fun _ _ => rfl, fun _ _ => rfl⟩
    · rw [heq]
      refine ⟨fun _ _ => rfl, ?_⟩
      intro sid hcl
      obtain ⟨hsm, _, hopen⟩ := findOpenResto_mem hfind
      have hne : s.id ≠ sid := by
        intro hco
        exact open_ne_closed_str hopen (hcl.2 s hsm hco)
      have hall : ∀ x ∈ ingestRows s.id db.next_item_id raw,
          decide (x.session_id = sid) = false := by
        intro x hx
        rw [decide_eq_false_iff_not, ingestRows_session s.id db.next_item_id raw x hx]
        exact hne
      unfold restoData
      dsimp only
      rw [filter_append_right_nil db.resto_items (ingestRows s.id db.next_item_id raw)
        (fun ri => decide (ri.session_id = sid)) hall]
      have hpt : ∀ rc ∈ db.resto_choices,
          ((db.resto_items ++ ingestRows s.id db.next_item_id raw).any
            (fun ri => decide (ri.id = rc.item_id ∧ ri.session_id = sid))) =
          (db.resto_items.any (fun ri => decide (ri.id = rc.item_id ∧ ri.session_id = sid))) := by
        intro rc _
        rw [List.any_append]
        have : (ingestRows s.id db.next_item_id raw).any
            (fun ri => decide (ri.id = rc.item_id ∧ ri.session_id = sid)) = false := by
          rw [List.any_eq_false]
          intro ri hri
          simp only [decide_eq_true_eq, not_and]
          intro _
          rw [ingestRows_session s.id db.next_item_id raw ri hri]
          exact hne
        rw [this, Bool.or_false]
      rw [List.filter_congr hpt]
  | toggle iid u n =>
    dsimp only [applyOp]
    rcases toggle_spec db iid u n with heq | ⟨ri, rs, hfri, hfrs, hsopen, hdel | hins⟩
    · rw [heq]
      exact ⟨fun _ _ => rfl, fun _ _ => rfl⟩
    · rw [hdel]
      refine ⟨fun _ _ => rfl, ?_⟩
      intro sid hcl
      have hmri := List.mem_of_find?_eq_some hfri
      have hpri := List.find?_some hfri
      simp only [decide_eq_true_eq] at hpri
      have hmrs := List.mem_of_find?_eq_some hfrs
      have hprs := List.find?_some hfrs
      simp only [decide_eq_true_eq] at hprs
      unfold restoData
      dsimp only
      rw [filter_filter_of_imp]
      intro rc _ hp
      rw [List.any_eq_true] at hp
      obtain ⟨ri', hri'm, hri'p⟩ := hp
      simp only [decide_eq_true_eq] at hri'p
      simp only [Bool.not_eq_true', decide_eq_false_iff_not, not_and]
      intro hitem _
      have hiditem : ri'.id = ri.id := by rw [hri'p.1, hitem, hpri]
      have : ri' = ri := List.inj_on_of_nodup_map hwn hri'm hmri hiditem
      subst this
      exact open_ne_closed_str hsopen (hcl.2 rs hmrs (by rw [hprs, ← hri'p.2]))
    · rw [hins]
      refine ⟨fun _ _ => rfl, ?_⟩
      intro sid hcl
      have hmri := List.mem_of_find?_eq_some hfri
      have hpri := List.find?_some hfri
      simp only [decide_eq_true_eq] at hpri
      have hmrs := List.mem_of_find?_eq_some hfrs
      have hprs := List.find?_some hfrs
      simp only [decide_eq_true_eq] at hprs
      unfold restoData
      dsimp only
      have hx : (db.resto_items.any
          (fun ri => decide (ri.id = (⟨iid, u, n⟩ : RestoChoice).item_id ∧
            ri.session_id = sid))) = false := by
        rw [List.any_eq_false]
        intro ri' hri'
        simp only [decide_eq_true_eq, not_and]
        intro hid hsid
        have hiditem : ri'.id = ri.id := by rw [hid, hpri]
        have : ri' = ri := List.inj_on_of_nodup_map hwn hri' hmri hiditem
        subst this
        exact open_ne_closed_str hsopen (hcl.2 rs hmrs (by rw [hprs, ← hsid]))
      rw [filter_append_singleton_false db.resto_choices _
        (fun rc => db.resto_items.any
          (fun ri => decide (ri.id = rc.item_id ∧ ri.session_id = sid))) hx]
  | closebill c u now =>
    dsimp only [applyOp]
    rcases closebill_spec db c u now with heq | ⟨b, hfind, _, heq⟩ | ⟨s, _, hfind, _, heq⟩
    · rw [heq]
      exact ⟨fun _ _ => rfl, fun _ _ => rfl⟩
    · rw [heq]
      rcases close_newbill_spec db b.id now with heq2 | heq2
      · rw [heq2]
        exact ⟨fun _ _ => rfl, fun _ _ => rfl⟩
      · rw [heq2]
        refine ⟨?_, fun _ _ => rfl⟩
        intro bid hcl
        obtain ⟨hbm, _, hopen⟩ := findOpenBill_mem hfind
        have hne : bid ≠ b.id := by
          intro hco
          exact open_ne_closed_str hopen (hcl.2 b hbm hco.symm)
        unfold billData
        dsimp only
        rw [filter_map_id_on]
        · intro x _
          rw [closeBillRow_id]
        · intro x _ hx
          simp only [decide_eq_true_eq] at hx
          unfold closeBillRow
          rw [if_neg (by rw [hx]; exact hne)]
    · rw [heq]
      rcases close_resto_spec db s.id now with heq2 | heq2
      · rw [heq2]
        exact ⟨fun _ _ => rfl, fun _ _ => rfl⟩
      · rw [heq2]
        refine ⟨fun _ _ => rfl, ?_⟩
        intro sid hcl
        obtain ⟨hsm, _, hopen⟩ := findOpenResto_mem hfind
        have hne : sid ≠ s.id := by
          intro hco
          exact open_ne_closed_str hopen (hcl.2 s hsm hco.symm)
        unfold restoData
        dsimp only
        rw [filter_map_id_on]
        · intro x _
          rw [closeRestoRow_id]
        · intro x _ hx
          simp only [decide_eq_true_eq] at hx
          unfold closeRestoRow
          rw [if_neg (by rw [hx]; exact hne)]
  | closeRestoBtn c u now =>
    dsimp only [applyOp]
    rcases close_resto_button_spec db c u now with heq | ⟨s, hfind, _, heq⟩
    · rw [heq]
      exact ⟨fun _ _ => rfl, fun _ _ => rfl⟩
    · rw [heq]
      rcases close_resto_spec db s.id now with heq2 | heq2
      · rw [heq2]
        exact ⟨fun _ _ => rfl, fun _ _ => rfl⟩
      · rw [heq2]
        refine ⟨fun _ _ => rfl, ?_⟩
        intro sid hcl
        obtain ⟨hsm, _, hopen⟩ := findOpenRestoLatest_mem hfind
        have hne : sid ≠ s.id := by
          intro hco
          exact open_ne_closed_str hopen (hcl.2 s hsm hco.symm)
        unfold restoData
        dsimp only
        rw [filter_map_id_on]
        · intro x _
          rw [closeRestoRow_id]
        · intro x _ hx
          simp only [decide_eq_true_eq] at hx
          unfold closeRestoRow
          rw [if_neg (by rw [hx]; exact hne)]

/-- C9: the participant set computed at close of an ItemizedReceipt session
always contains the creator (the creator fallback guarantees it), hence it is
never empty and `close_resto` never takes its NoParticipants branch, whatever
the database contents. -/
theorem close_resto_never_no_participants (db : DB) (sid now : ℕ) (cid : ℤ) (cname : String) :
    cid ∈ (closeRestoParticipants db sid cid cname).map Prod.fst ∧
    closeRestoParticipants db sid cid cname ≠ [] ∧
    (close_resto db sid now).2 ≠ Outcome.noParticipants := by
  have hmem : ∀ (cid' : ℤ) (cname' : String),
      cid' ∈ (closeRestoParticipants db sid cid' cname').map Prod.fst := by
    intro cid' cname'
    unfold closeRestoParticipants
    by_cases h : (restoParticipants db sid).any (fun q => decide (q.1 = cid'))
    · rw [if_pos h]
      rw [List.any_eq_true] at h
      obtain ⟨q, hq, hq1⟩ := h
      simp only [decide_eq_true_eq] at hq1
      exact hq1 ▸ List.mem_map_of_mem Prod.fst hq
    · rw [if_neg h]
      rw [List.map_append]
      exact List.mem_append_right _ (by simp)
  refine ⟨hmem cid cname, ?_, ?_⟩
  · intro hco
    have := hmem cid cname
    rw [hco] at this
    simp at this
  · unfold close_resto
    cases h : db.resto_sessions.find? (fun s => decide (s.id = sid)) with
    | none => simp
    | some s =>
      dsimp only
      have hne : (closeRestoParticipants db sid s.creator_id s.creator_username).isEmpty
          = false := by
        rw [List.isEmpty_eq_false_iff_exists_mem]
        have := hmem s.creator_id s.creator_username
        rw [List.mem_map] at this
        obtain ⟨q, hq, _⟩ := this
        exact ⟨q, hq⟩
      rw [if_neg (by rw [hne]; exact Bool.false_ne_true)]
      simp

/-- C8: a receipt submitted to an ItemizedReceipt session that already has
LineItems is rejected with AlreadyIngested and the database — in particular
the session's items and claims — is exactly unchanged. -/
theorem second_ingest_rejected (db : DB) (c u : ℤ) (raw : List RawItem) (s : RestoSession)
    (hs : findOpenResto db c = some s) (hcr : u = s.creator_id)
    (hne : 0 < (db.resto_items.filter (fun ri => decide (ri.session_id = s.id))).length) :
    handle_receipt_photo db c u raw = (db, Outcome.alreadyIngested) := by
  unfold handle_receipt_photo
  rw [hs]
  dsimp only
  rw [if_neg (by rw [hcr]; simp), if_pos hne]

lemma handle_item_choice_eq (db : DB) (iid : ℕ) (u : ℤ) (n : String) (ri : RestoItem)
    (rs : RestoSession)
    (hri : db.resto_items.find? (fun x => decide (x.id = iid)) = some ri)
    (hrs : db.resto_sessions.find? (fun x => decide (x.id = ri.session_id)) = some rs)
    (hopen : rs.status = "open") :
    handle_item_choice db iid u n =
      (if db.resto_choices.any (fun rc => decide (rc.item_id = iid ∧ rc.user_id = u)) then
        ({ db with resto_choices :=
            db.resto_choices.filter (fun rc => !decide (rc.item_id = iid ∧ rc.user_id = u)) },
          Outcome.toggledOff)
      else
        ({ db with resto_choices := db.resto_choices ++ [⟨iid, u, n⟩] }, Outcome.toggledOn)) := by
  unfold handle_item_choice
  rw [hri]
  dsimp only
  rw [hrs]
  dsimp only
  rw [if_neg (by rw [hopen]; simp)]

/-- C6: with the owning session open and the claim set holding at most one
row for `(item, user)` (whose display name is the toggling user's name), a
toggle with the claim present removes exactly that one claim, a toggle with
the claim absent inserts exactly one claim, and two toggles in succession
return the claim set to exactly its original rows (as a multiset). -/
theorem toggle_claim_toggles (db : DB) (iid : ℕ) (u : ℤ) (n : String) (ri : RestoItem)
    (rs : RestoSession)
    (hri : db.resto_items.find? (fun x => decide (x.id = iid)) = some ri)
    (hrs : db.resto_sessions.find? (fun x => decide (x.id = ri.session_id)) = some rs)
    (hopen : rs.status = "open")
    (hcnt : db.resto_choices.countP
      (fun rc => decide (rc.item_id = iid ∧ rc.user_id = u)) ≤ 1)
    (hrow : ∀ rc ∈ db.resto_choices, rc.item_id = iid → rc.user_id = u → rc = ⟨iid, u, n⟩) :
    (db.resto_choices.any (fun rc => decide (rc.item_id = iid ∧ rc.user_id = u)) = true →
      db.resto_choices.Perm
        ((handle_item_choice db iid u n).1.resto_choices ++ [⟨iid, u, n⟩]) ∧
      (handle_item_choice db iid u n).2 = Outcome.toggledOff) ∧
    (db.resto_choices.any (fun rc => decide (rc.item_id = iid ∧ rc.user_id = u)) = false →
      (handle_item_choice db iid u n).1.resto_choices = db.resto_choices ++ [⟨iid, u, n⟩] ∧
      (handle_item_choice db iid u n).2 = Outcome.toggledOn) ∧
    ((handle_item_choice (handle_item_choice db iid u n).1 iid u n).1.resto_choices.Perm
      db.resto_choices) := by
  have heq1 := handle_item_choice_eq db iid u n ri rs hri hrs hopen
  by_cases hany : db.resto_choices.any (fun rc => decide (rc.item_id = iid ∧ rc.user_id = u))
      = true
  · -- the claim is present: exactly one row matches and it is ⟨iid, u, n⟩
    have hfq : db.resto_choices.filter
        (fun rc => decide (rc.item_id = iid ∧ rc.user_id = u)) = [⟨iid, u, n⟩] := by
      have hlen : (db.resto_choices.filter
          (fun rc => decide (rc.item_id = iid ∧ rc.user_id = u))).length = 1 := by
        have h1 : 1 ≤ (db.resto_choices.filter
            (fun rc => decide (rc.item_id = iid ∧ rc.user_id = u))).length := by
          rw [List.any_eq_true] at hany
          obtain ⟨x, hx, hqx⟩ := hany
          have : x ∈ db.resto_choices.filter
              (fun rc => decide (rc.item_id = iid ∧ rc.user_id = u)) :=
            List.mem_filter.mpr ⟨hx, hqx⟩
          exact List.length_pos.mpr (List.ne_nil_of_mem this)
        have h2 := hcnt
        rw [List.countP_eq_length_filter] at h2
        omega
      obtain ⟨a, ha⟩ := List.length_eq_one.mp hlen
      have ham : a ∈ db.resto_choices.filter
          (fun rc => decide (rc.item_id = iid ∧ rc.user_id = u)) := by
        rw [ha]
        exact List.mem_singleton_self a
      have haq := List.of_mem_filter ham
      simp only [decide_eq_true_eq] at haq
      have := hrow a (List.mem_of_mem_filter ham) haq.1 haq.2
      rw [ha, this]
    have hperm : (db.resto_choices.filter
          (fun rc => !decide (rc.item_id = iid ∧ rc.user_id = u)) ++
            [(⟨iid, u, n⟩ : RestoChoice)]).Perm db.resto_choices := by
      have h0 := List.filter_append_perm
        (fun rc => decide (rc.item_id = iid ∧ rc.user_id = u)) db.resto_choices
      rw [hfq] at h0
      exact List.Perm.trans List.perm_append_comm h0
    refine ⟨fun _ => ⟨?_, ?_⟩, fun hco => absurd hany (by rw [hco]; simp), ?_⟩
    · rw [heq1, if_pos hany]
      exact hperm.symm
    · rw [heq1, if_pos hany]
    · rw [heq1, if_pos hany]
      dsimp only
      have hri1 : ((({ db with resto_choices :=
          db.resto_choices.filter (fun rc => !decide (rc.item_id = iid ∧ rc.user_id = u)) } :
            DB)).resto_items.find? (fun x => decide (x.id = iid))) = some ri := hri
      have heq2 := handle_item_choice_eq _ iid u n ri rs hri1 hrs hopen
      rw [heq2]
      have hany2 : (db.resto_choices.filter
          (fun rc => !decide (rc.item_id = iid ∧ rc.user_id = u))).any
            (fun rc => decide (rc.item_id = iid ∧ rc.user_id = u)) = false := by
        rw [List.any_eq_false]
        intro x hx
        have := List.of_mem_filter hx
        simp only [Bool.not_eq_true'] at this
        simp [this]
      rw [if_neg (by rw [hany2]; exact Bool.false_ne_true)]
      dsimp only
      exact hperm
  · -- the claim is absent: the toggle appends exactly one row
    have hany' : db.resto_choices.any
        (fun rc => decide (rc.item_id = iid ∧ rc.user_id = u)) = false :=
      Bool.not_eq_true _ ▸ (Bool.eq_false_iff.mpr (by simpa using hany))
    have hself : db.resto_choices.filter
        (fun rc => !decide (rc.item_id = iid ∧ rc.user_id = u)) = db.resto_choices := by
      rw [List.filter_eq_self]
      intro x hx
      rw [List.any_eq_false] at hany'
      simp only [Bool.not_eq_true']
      exact Bool.not_eq_true _ ▸ (Bool.eq_false_iff.mpr (hany' x hx))
    refine ⟨fun hco => absurd hco (by rw [hany']; simp), fun _ => ⟨?_, ?_⟩, ?_⟩
    · rw [heq1, if_neg (by rw [hany']; exact Bool.false_ne_true)]
    · rw [heq1, if_neg (by rw [hany']; exact Bool.false_ne_true)]
    · rw [heq1, if_neg (by rw [hany']; exact Bool.false_ne_true)]
      dsimp only
      have hri1 : ((({ db with resto_choices := db.resto_choices ++ [⟨iid, u, n⟩] } :
          DB)).resto_items.find? (fun x => decide (x.id = iid))) = some ri := hri
      have heq2 := handle_item_choice_eq _ iid u n ri rs hri1 hrs hopen
      rw [heq2]
      have hany2 : (db.resto_choices ++ [(⟨iid, u, n⟩ : RestoChoice)]).any
          (fun rc => decide (rc.item_id = iid ∧ rc.user_id = u)) = true := by
        rw [List.any_append]
        have : ([(⟨iid, u, n⟩ : RestoChoice)]).any
            (fun rc => decide (rc.item_id = iid ∧ rc.user_id = u)) = true := by
          simp
        rw [this, Bool.or_true]
      rw [if_pos hany2]
      dsimp only
      rw [List.filter_append, hself]
      have : ([(⟨iid, u, n⟩ : RestoChoice)]).filter
          (fun rc => !decide (rc.item_id = iid ∧ rc.user_id = u)) = [] := by
        simp
      rw [this, List.append_nil]

/-- A database with one open bill in chat 1 whose only participant is user 7. -/
def dbExp : DB :=
  { bills := [⟨1, 1, 7, "a", none, "open"⟩],
    bill_participants := [⟨1, 7, "a"⟩],
    expenses := [], resto_sessions := [], resto_items := [], resto_choices := [],
    next_bill_id := 2, next_session_id := 1, next_item_id := 1 }

/-- C4 (counterexample): the message `fine -50` from a joined participant of
an open bill parses (Python `float("-50")` succeeds) and an Expense with the
negative amount `-50` is appended — there is no positivity check, so the
operation neither fails with InvalidAmount nor keeps stored amounts
positive. -/
theorem expense_nonpositive_cex :
    (handle_expense dbExp 1 7 "a" "fine -50").2 = Outcome.expenseAdded ∧
    (handle_expense dbExp 1 7 "a" "fine -50").1.expenses =
      [⟨1, 7, "a", "fine", (-1 : ℚ) * ((50 : ℕ) : ℚ)⟩] ∧
    (-1 : ℚ) * ((50 : ℕ) : ℚ) < 0 := by
  refine ⟨rfl, rfl, by norm_num⟩

/-- C4 (amended): for a joined participant of an open bill, a two-token
message whose amount token does not parse as a decimal number is dropped
silently with no Expense appended; a token that parses — whatever its sign,
zero and negative included — is appended as-is.  The only amount check is
parseability, not positivity. -/
theorem expense_records_parsed_amount (db : DB) (c u : ℤ) (n t : String) (b : Bill)
    (hb : findOpenBill db c = some b)
    (hp : db.bill_participants.any (fun p => decide (p.bill_id = b.id ∧ p.user_id = u))
      = true) :
    (rsplitLast (pyStrip t) = none → handle_expense db c u n t = (db, Outcome.badFormat)) ∧
    (∀ d0 a0, rsplitLast (pyStrip t) = some (d0, a0) →
      (pyFloat? (stripSpacesCommas a0) = none →
        handle_expense db c u n t = (db, Outcome.invalidAmount)) ∧
      (∀ q, pyFloat? (stripSpacesCommas a0) = some q →
        handle_expense db c u n t =
          ({ db with expenses := db.expenses ++ [⟨b.id, u, n, d0, q⟩] },
            Outcome.expenseAdded))) := by
  constructor
  · intro hr
    unfold handle_expense
    rw [hb]
    dsimp only
    rw [if_neg (by rw [hp]; simp), hr]
  · intro d0 a0 hr
    constructor
    · intro hf
      unfold handle_expense
      rw [hb]
      dsimp only
      rw [if_neg (by rw [hp]; simp), hr]
      dsimp only
      rw [hf]
    · intro q hf
      unfold handle_expense
      rw [hb]
      dsimp only
      rw [if_neg (by rw [hp]; simp), hr]
      dsimp only
      rw [hf]

/-- Witness for the amended C4 theorem: in `dbExp`, the message `tea five`
is dropped (unparseable amount) and the message `fine -50` is recorded with
amount `-50`. -/
theorem expense_records_parsed_amount_witness :
    handle_expense dbExp 1 7 "a" "tea five" = (dbExp, Outcome.invalidAmount) ∧
    handle_expense dbExp 1 7 "a" "fine -50" =
      ({ dbExp with expenses := dbExp.expenses ++
          [⟨1, 7, "a", "fine", (-1 : ℚ) * ((50 : ℕ) : ℚ)⟩] }, Outcome.expenseAdded) := by
  have h := expense_records_parsed_amount dbExp 1 7 "a" "tea five"
    ⟨1, 1, 7, "a", none, "open"⟩ rfl rfl
  have h2 := expense_records_parsed_amount dbExp 1 7 "a" "fine -50"
    ⟨1, 1, 7, "a", none, "open"⟩ rfl rfl
  constructor
  · exact (h.2 "tea" "five" rfl).1 rfl
  · exact (h2.2 "fine" "-50" rfl).2 ((-1 : ℚ) * ((50 : ℕ) : ℚ)) rfl

/-- A database with one open resto session (id 1, creator 7) in chat 1 and
no items yet. -/
def dbResto : DB :=
  { bills := [], bill_participants := [], expenses := [],
    resto_sessions := [⟨1, 1, 7, "a", none, "open"⟩],
    resto_items := [], resto_choices := [],
    next_bill_id := 1, next_session_id := 2, next_item_id := 1 }

/-- C5 (counterexample): a nonempty candidate list whose only item is
invalid (empty name) is processed as a SUCCESS inserting zero LineItems —
the handler does not fail with NoValidItems; its only error branch for the
candidate list fires when the list itself is empty, before validation. -/
theorem ingest_all_invalid_cex :
    (handle_receipt_photo dbResto 1 7 [⟨some "", some 5, none⟩]).2 =
      Outcome.receiptProcessed ∧
    (handle_receipt_photo dbResto 1 7 [⟨some "", some 5, none⟩]).1.resto_items = [] ∧
    [(⟨some "", some 5, none⟩ : RawItem)] ≠ [] := by
  refine ⟨rfl, rfl, by simp⟩

/-- C5 (amended): with an open session, the creator sending, and no items
ingested yet: an empty candidate list is refused with no insert; a nonempty
candidate list always succeeds, inserting exactly the validated items
(trimmed nonempty name, positive price) — individually invalid items are
dropped, and when every item is invalid the operation still succeeds and
inserts nothing rather than failing with NoValidItems. -/
theorem ingest_validates_items (db : DB) (c u : ℤ) (raw : List RawItem) (s : RestoSession)
    (hs : findOpenResto db c = some s) (hcr : u = s.creator_id)
    (hni : (db.resto_items.filter (fun ri => decide (ri.session_id = s.id))).length = 0) :
    (raw = [] → handle_receipt_photo db c u raw = (db, Outcome.noItemsRecognized)) ∧
    (raw ≠ [] → handle_receipt_photo db c u raw =
      ({ db with
          resto_items := db.resto_items ++ ingestRows s.id db.next_item_id raw,
          next_item_id := db.next_item_id + (raw.filterMap validItem).length },
        Outcome.receiptProcessed)) ∧
    ((ingestRows s.id db.next_item_id raw).map
        (fun ri => (ri.item_name, ri.price, ri.quantity)) = raw.filterMap validItem) := by
  refine ⟨?_, ?_, ?_⟩
  · intro hraw
    unfold handle_receipt_photo
    rw [hs]
    dsimp only
    rw [if_neg (by rw [hcr]; simp), if_neg (by omega), if_pos (by rw [hraw]; rfl)]
  · intro hraw
    unfold handle_receipt_photo
    rw [hs]
    dsimp only
    rw [if_neg (by rw [hcr]; simp), if_neg (by omega),
      if_neg (by rw [List.isEmpty_iff]; exact hraw)]
  · unfold ingestRows
    rw [List.map_map]
    exact List.enum_map_snd _

/-- Witness for the amended C5 theorem: of two candidates, the one with a
trimmable nonempty name and positive price is inserted, the empty-named one
is dropped. -/
theorem ingest_validates_items_witness :
    handle_receipt_photo dbResto 1 7
        [⟨some " tea ", some 5, some 2⟩, ⟨some "", some 3, none⟩] =
      ({ dbResto with
          resto_items := dbResto.resto_items ++
            ingestRows 1 1 [⟨some " tea ", some 5, some 2⟩, ⟨some "", some 3, none⟩],
          next_item_id := 1 +
            ([(⟨some " tea ", some 5, some 2⟩ : RawItem),
              ⟨some "", some 3, none⟩].filterMap validItem).length },
        Outcome.receiptProcessed) ∧
    ingestRows 1 1 [⟨some " tea ", some 5, some 2⟩, ⟨some "", some 3, none⟩] =
      [⟨1, 1, "tea", 5, 2, false⟩] := by
  have h := ingest_validates_items dbResto 1 7
    [⟨some " tea ", some 5, some 2⟩, ⟨some "", some 3, none⟩]
    ⟨1, 1, 7, "a", none, "open"⟩ rfl rfl rfl
  exact ⟨h.2.1 (by simp), rfl⟩

/-- C10 (counterexample): chat 1 has an open bill and an open resto session;
the bill's creator runs `/closebill`; the command addresses the bill but
fails with NoParticipants, so the bill is NOT closed — both sessions remain
open.  The claim that `/closebill` closes the PooledBill bill whenever both
are open is false without the creator/participants/expenses provisos. -/
theorem closebill_both_open_cex :
    (applyOp (Op.closebill 1 7 5) (execOps [Op.newbill 1 7 "a", Op.resto 1 7 "a"])).2 =
      Outcome.noParticipants ∧
    countOpenBills (execOps [Op.newbill 1 7 "a", Op.resto 1 7 "a", Op.closebill 1 7 5]) 1 = 1 ∧
    countOpenRestos (execOps [Op.newbill 1 7 "a", Op.resto 1 7 "a", Op.closebill 1 7 5]) 1 = 1 :=
  ⟨rfl, rfl, rfl⟩

/-- C10 (amended): while an open bill exists in the chat, `/closebill`
always addresses the bill and never touches the resto session's stored data,
whoever the requester is and whatever errors occur; the bill itself is
closed exactly when the requester is the bill's creator and the bill has at
least one participant and one expense.  The resto session can only be closed
by a later request, once no open bill remains (or via its inline button). -/
theorem closebill_prefers_bill (db : DB) (c u : ℤ) (now : ℕ) (b : Bill)
    (hb : findOpenBill db c = some b) :
    ((closebill db c u now).1.resto_sessions = db.resto_sessions ∧
     (closebill db c u now).1.resto_items = db.resto_items ∧
     (closebill db c u now).1.resto_choices = db.resto_choices) ∧
    (u = b.creator_id →
      (db.bill_participants.filter (fun p => decide (p.bill_id = b.id))).isEmpty = false →
      (db.expenses.filter (fun e => decide (e.bill_id = b.id))).isEmpty = false →
      closebill db c u now =
        ({ db with bills := db.bills.map (closeBillRow b.id now) }, Outcome.closedBill)) := by
  constructor
  · unfold closebill
    rw [hb]
    dsimp only
    by_cases hc : u ≠ b.creator_id
    · rw [if_pos hc]
      exact ⟨rfl, rfl, rfl⟩
    · rw [if_neg hc]
      rcases close_newbill_spec db b.id now with heq | heq <;> rw [heq] <;> exact ⟨rfl, rfl, rfl⟩
  · intro hcr hp he
    unfold closebill
    rw [hb]
    dsimp only
    rw [if_neg (by rw [hcr]; simp)]
    unfold close_newbill
    dsimp only
    rw [if_neg (by rw [hp]; exact Bool.false_ne_true),
      if_neg (by rw [he]; exact Bool.false_ne_true)]
    rfl

/-- A database where chat 1 has an open bill (creator 7, one participant,
one expense) and an open resto session. -/
def dbC10 : DB :=
  { bills := [⟨1, 1, 7, "a", none, "open"⟩],
    bill_participants := [⟨1, 7, "a"⟩],
    expenses := [⟨1, 7, "a", "tea", 10⟩],
    resto_sessions := [⟨1, 1, 7, "a", none, "open"⟩],
    resto_items := [], resto_choices := [],
    next_bill_id := 2, next_session_id := 2, next_item_id := 1 }

/-- Witness for the amended C10 theorem at `dbC10`. -/
theorem closebill_prefers_bill_witness :
    (closebill dbC10 1 7 5).1.resto_sessions = dbC10.resto_sessions ∧
    closebill dbC10 1 7 5 =
      ({ dbC10 with bills := dbC10.bills.map (closeBillRow 1 5) }, Outcome.closedBill) := by
  have h := closebill_prefers_bill dbC10 1 7 5 ⟨1, 1, 7, "a", none, "open"⟩ rfl
  exact ⟨h.1.1, h.2 rfl rfl rfl⟩

/-- A database whose bill 1 and resto session 1 are both closed, each with
some stored data. -/
def closedDB : DB :=
  { bills := [⟨1, 1, 7, "a", some 5, "closed"⟩],
    bill_participants := [⟨1, 7, "a"⟩],
    expenses := [⟨1, 7, "a", "pizza", 100⟩],
    resto_sessions := [⟨1, 1, 7, "a", some 5, "closed"⟩],
    resto_items := [⟨1, 1, "tea", 10, 1, false⟩],
    resto_choices := [⟨1, 7, "a"⟩],
    next_bill_id := 2, next_session_id := 2, next_item_id := 2 }

/-- Witness for C7 at `closedDB`: a join attempt and a toggle attempt on the
closed sessions change none of their stored data. -/
theorem closed_session_frozen_witness :
    billData (applyOp (Op.join 1 8 "b") closedDB).1 1 = billData closedDB 1 ∧
    restoData (applyOp (Op.toggle 1 8 "b") closedDB).1 1 = restoData closedDB 1 := by
  have hwf : wfIds closedDB := by
    refine ⟨?_, ?_, ?_, ?_⟩
    · intro b hb
      rw [show closedDB.bills = [⟨1, 1, 7, "a", some 5, "closed"⟩] from rfl,
        List.mem_singleton] at hb
      subst hb
      decide
    · intro s hs
      rw [show closedDB.resto_sessions = [⟨1, 1, 7, "a", some 5, "closed"⟩] from rfl,
        List.mem_singleton] at hs
      subst hs
      decide
    · intro ri hri
      rw [show closedDB.resto_items = [⟨1, 1, "tea", 10, 1, false⟩] from rfl,
        List.mem_singleton] at hri
      subst hri
      decide
    · rw [show closedDB.resto_items.map RestoItem.id = [1] from rfl]
      decide
  have hbc : billClosed closedDB 1 := by
    refine ⟨⟨⟨1, 1, 7, "a", some 5, "closed"⟩, by simp [closedDB], rfl⟩, ?_⟩
    intro b hb _
    rw [show closedDB.bills = [⟨1, 1, 7, "a", some 5, "closed"⟩] from rfl,
      List.mem_singleton] at hb
    subst hb
    rfl
  have hrc : restoClosed closedDB 1 := by
    refine ⟨⟨⟨1, 1, 7, "a", some 5, "closed"⟩, by simp [closedDB], rfl⟩, ?_⟩
    intro s hs _
    rw [show closedDB.resto_sessions = [⟨1, 1, 7, "a", some 5, "closed"⟩] from rfl,
      List.mem_singleton] at hs
    subst hs
    rfl
  exact ⟨(closed_session_frozen (Op.join 1 8 "b") closedDB hwf).1 1 hbc,
    (closed_session_frozen (Op.toggle 1 8 "b") closedDB hwf).2 1 hrc⟩

/-- A database with an open resto session (id 1, creator 7) holding one item
and no claims yet. -/
def dbToggle : DB :=
  { bills := [], bill_participants := [], expenses := [],
    resto_sessions := [⟨1, 1, 7, "a", none, "open"⟩],
    resto_items := [⟨1, 1, "tea", 10, 1, false⟩],
    resto_choices := [],
    next_bill_id := 1, next_session_id := 2, next_item_id := 2 }

/-- Witness for C6 at `dbToggle`: user 8 toggles item 1 on, then off, and
the claim set is restored. -/
theorem toggle_claim_toggles_witness :
    (handle_item_choice dbToggle 1 8 "b").1.resto_choices =
      dbToggle.resto_choices ++ [⟨1, 8, "b"⟩] ∧
    (handle_item_choice (handle_item_choice dbToggle 1 8 "b").1 1 8 "b").1.resto_choices.Perm
      dbToggle.resto_choices := by
  have h := toggle_claim_toggles dbToggle 1 8 "b" ⟨1, 1, "tea", 10, 1, false⟩
    ⟨1, 1, 7, "a", none, "open"⟩ rfl rfl rfl (by decide)
    (by intro rc hrc; simp [dbToggle] at hrc)
  exact ⟨(h.2.1 rfl).1, h.2.2⟩

/-- Witness for C8 at `dbToggle` (session 1 already has an item): a second
receipt is rejected and the database is unchanged. -/
theorem second_ingest_rejected_witness :
    handle_receipt_photo dbToggle 1 7 [⟨some "x", some 5, none⟩] =
      (dbToggle, Outcome.alreadyIngested) :=
  second_ingest_rejected dbToggle 1 7 [⟨some "x", some 5, none⟩]
    ⟨1, 1, 7, "a", none, "open"⟩ rfl rfl (by decide)
